import Mathlib

/-!
Verification of the TodaySudoku puzzle engine
(`client/src/lib/sudoku/solver.ts` and `client/src/lib/sudoku/generator.ts`).

A board (`number[][]`, 9x9, values 0..9, 0 = empty) is embedded as a function
`Fin 9 → Fin 9 → Nat`.  The in-place mutation performed by the TypeScript
solver is embedded by explicit state passing: `solveBoard` returns the boolean
result together with the final contents of the board object, and the
solution-counting search of `hasUniqueSolution` likewise returns the final
count together with the final contents of the board it searched on.
-/

set_option maxHeartbeats 1000000
set_option maxRecDepth 2000
set_option linter.constructorNameAsVariable false

abbrev Board := Fin 9 → Fin 9 → Nat

abbrev Pos := Fin 9 × Fin 9

/-- `board[r][c] = v` — writing one cell of the 9x9 array. -/
def setCell (b : Board) (r c : Fin 9) (v : Nat) : Board :=
  fun i j => if i = r ∧ j = c then v else b i j

/-- All 81 cell positions in row-major order (row loop outside, column loop
inside), the scan order used by `findEmptyCell` and the zeroing loops. -/
def allCells : List Pos :=
  (List.finRange 9).flatMap (fun r => (List.finRange 9).map (fun c => (r, c)))

/-- `findEmptyCell` from solver.ts: first cell equal to 0 in row-major order. -/
def findEmptyCell (b : Board) : Option Pos :=
  allCells.find? (fun p => b p.1 p.2 == 0)

/-- The cell scanned by the box loop of `isValidPlacement`:
`boxStartRow + dr, boxStartCol + dc` where `boxStart… = Math.floor(… / 3) * 3`. -/
def boxScanCell (row col : Fin 9) (dr dc : Fin 3) : Pos :=
  (⟨row.val / 3 * 3 + dr.val, by have h1 := dr.isLt; have h2 := row.isLt; omega⟩,
   ⟨col.val / 3 * 3 + dc.val, by have h1 := dc.isLt; have h2 := col.isLt; omega⟩)

/-- `isValidPlacement` from solver.ts: value 0 is always valid; otherwise the
row, the column and the 3x3 box are scanned, skipping the cell itself by
coordinate comparison. -/
def isValidPlacement (b : Board) (row col : Fin 9) (value : Nat) : Bool :=
  if value = 0 then true
  else
    ((List.finRange 9).all (fun c => c == col || !(b row c == value))) &&
    ((List.finRange 9).all (fun r => r == row || !(b r col == value))) &&
    ((List.finRange 3).all (fun dr =>
      (List.finRange 3).all (fun dc =>
        let p := boxScanCell row col dr dc
        (p.1 == row && p.2 == col) || !(b p.1 p.2 == value))))

/-- The seen-set loop body of `isValidUnit` (the `Set<number>` is embedded as
the list of values seen so far). -/
def isValidUnitGo (seen : List Nat) : List Nat → Bool
  | [] => true
  | n :: rest =>
    if n = 0 then isValidUnitGo seen rest
    else if n ∈ seen then false
    else isValidUnitGo (n :: seen) rest

/-- `isValidUnit` from solver.ts: no non-zero value repeats in the unit. -/
def isValidUnit (unit : List Nat) : Bool :=
  isValidUnitGo [] unit

/-- Row `r` of the board as a list (the array `board[row]`). -/
def rowList (b : Board) (r : Fin 9) : List Nat :=
  (List.finRange 9).map (fun c => b r c)

/-- Column `c` of the board as a list (`board.map(row => row[col])`). -/
def colList (b : Board) (c : Fin 9) : List Nat :=
  (List.finRange 9).map (fun r => b r c)

/-- The `k`-th cell pushed by `getBox` (row-major inside the box:
`k = 3*dr + dc`). -/
def boxCell (br bc : Fin 3) (k : Fin 9) : Pos :=
  (⟨br.val * 3 + k.val / 3, by have h1 := br.isLt; have h2 := k.isLt; omega⟩,
   ⟨bc.val * 3 + k.val % 3, by
     have h1 := bc.isLt; have h2 := Nat.mod_lt k.val (y := 3) (by omega); omega⟩)

/-- `getBox` from solver.ts: the 3x3 box `(boxRow, boxCol)` flattened in
row-major order. -/
def boxList (b : Board) (br bc : Fin 3) : List Nat :=
  (List.finRange 9).map (fun k => b (boxCell br bc k).1 (boxCell br bc k).2)

/-- `validateSudokuBoard` from solver.ts: all 9 rows, 9 columns and 9 boxes
pass `isValidUnit`. -/
def validateSudokuBoard (b : Board) : Bool :=
  ((List.finRange 9).all (fun r => isValidUnit (rowList b r))) &&
  ((List.finRange 9).all (fun c => isValidUnit (colList b c))) &&
  ((List.finRange 3).all (fun br =>
    (List.finRange 3).all (fun bc => isValidUnit (boxList b br bc))))

/-- `isBoardComplete` from solver.ts: no cell equals 0. -/
def isBoardComplete (b : Board) : Bool :=
  allCells.all (fun p => !(b p.1 p.2 == 0))

/-- `copyBoard` from solver.ts (`board.map(row => [...row])`): a fresh board
with the same contents. -/
def copyBoard (b : Board) : Board :=
  fun i j => b i j

/-- The `for num = 1..9` loop of `solveBoard`: `recur` is the recursive call
on the rest of the board.  On a failed recursive call the cell is reset to 0
(`board[row][col] = 0`) and the next candidate is tried on the resulting
board. -/
def solveLoop (recur : Board → Bool × Board) (row col : Fin 9) :
    List Nat → Board → Bool × Board
  | [], cur => (false, cur)
  | num :: rest, cur =>
    if isValidPlacement cur row col num then
      match recur (setCell cur row col num) with
      | (true, b2) => (true, b2)
      | (false, b2) => solveLoop recur row col rest (setCell b2 row col 0)
    else solveLoop recur row col rest cur

/-- `solveBoard` from solver.ts with an explicit recursion-depth fuel.  Each
recursive call fills one empty cell, so any fuel larger than the number of
empty cells (at most 81) makes the fuel guard unreachable. -/
def solveAux : Nat → Board → Bool × Board
  | 0, b => (false, b)
  | fuel + 1, b =>
    match findEmptyCell b with
    | none => (true, b)
    | some (row, col) =>
      solveLoop (solveAux fuel) row col [1, 2, 3, 4, 5, 6, 7, 8, 9] b

/-- `solveBoard(board)`: returns the boolean result and the final contents of
the board object that was mutated in place. -/
def solveBoard (b : Board) : Bool × Board :=
  solveAux 82 b

/-- The `for num = 1..9` loop of `countSolutions`: after every recursive call
the cell is unconditionally reset, and the loop exits as soon as the counter
exceeds 1. -/
def countLoop (recur : Board → Nat → Nat × Board) (row col : Fin 9) :
    List Nat → Board → Nat → Nat × Board
  | [], cur, k => (k, cur)
  | num :: rest, cur, k =>
    if isValidPlacement cur row col num then
      match recur (setCell cur row col num) k with
      | (k2, b2) =>
        let cur2 := setCell b2 row col 0
        if k2 > 1 then (k2, cur2)
        else countLoop recur row col rest cur2 k2
    else countLoop recur row col rest cur k

/-- `countSolutions` from `hasUniqueSolution`: counts completed assignments
(the counter is threaded through instead of captured mutable state), stopping
as soon as two are found. -/
def countAux : Nat → Board → Nat → Nat × Board
  | 0, b, k => (k, b)
  | fuel + 1, b, k =>
    match findEmptyCell b with
    | none => (k + 1, b)
    | some (row, col) =>
      if k > 1 then (k, b)
      else countLoop (countAux fuel) row col [1, 2, 3, 4, 5, 6, 7, 8, 9] b k

/-- The body of `hasUniqueSolution(board)`: run `countSolutions` on a copy of
the caller's board, starting from count 0.  Returns the final count and the
final contents of the board object the search ran on. -/
def hasUniqueSolutionRun (b : Board) : Nat × Board :=
  countAux 82 (copyBoard b) 0

/-- `hasUniqueSolution(board)`: true iff the capped solution count is
exactly 1. -/
def hasUniqueSolution (b : Board) : Bool :=
  (hasUniqueSolutionRun b).1 == 1

/-- Number of empty cells of a board (used only to justify the fuel bound). -/
def emptyCount (b : Board) : Nat :=
  (Finset.univ.filter (fun p : Pos => b p.1 p.2 = 0)).card

/-- The claims quantify over 9x9 grids with values in `[0, 9]`. -/
def okBoard (b : Board) : Prop :=
  ∀ i j : Fin 9, b i j ≤ 9

instance (b : Board) : Decidable (okBoard b) := by
  unfold okBoard; infer_instance

-- ——————————————————————————————————————————————————————————————————————————
-- Specification-side predicates: what it means to solve a sudoku.
-- ——————————————————————————————————————————————————————————————————————————

/-- `s` agrees with every clue (non-zero cell) of `b`. -/
def ExtendsB (b s : Board) : Prop :=
  ∀ i j : Fin 9, b i j ≠ 0 → s i j = b i j

/-- Every cell of `s` holds a digit 1..9. -/
def InRange9 (s : Board) : Prop :=
  ∀ i j : Fin 9, 1 ≤ s i j ∧ s i j ≤ 9

/-- No non-zero value is repeated in any row, column, or 3x3 box: the three
conjuncts mirror the row, column and box scans of the validator. -/
def ValidB (b : Board) : Prop :=
  (∀ r c1 c2 : Fin 9, c1 ≠ c2 → b r c1 ≠ 0 → b r c1 ≠ b r c2) ∧
  (∀ c r1 r2 : Fin 9, r1 ≠ r2 → b r1 c ≠ 0 → b r1 c ≠ b r2 c) ∧
  (∀ p q : Pos, p ≠ q → p.1.val / 3 = q.1.val / 3 → p.2.val / 3 = q.2.val / 3 →
    b p.1 p.2 ≠ 0 → b p.1 p.2 ≠ b q.1 q.2)

/-- `s` is a full, constraint-satisfying grid of digits 1..9 agreeing with
every clue of `b`: an assignment of digits to the empty cells of `b` that
completes it. -/
def Solves (b s : Board) : Prop :=
  ExtendsB b s ∧ InRange9 s ∧ ValidB s

instance (b s : Board) : Decidable (ExtendsB b s) := by
  unfold ExtendsB; infer_instance

instance (s : Board) : Decidable (InRange9 s) := by
  unfold InRange9; infer_instance

instance (b : Board) : Decidable (ValidB b) := by
  unfold ValidB
  exact @instDecidableAnd _ _ inferInstance
    (@instDecidableAnd _ _ inferInstance inferInstance)

instance (b s : Board) : Decidable (Solves b s) := by
  unfold Solves
  exact @instDecidableAnd _ _ inferInstance
    (@instDecidableAnd _ _ inferInstance inferInstance)

/-- Full grids of digits 1..9, used to count solutions (`g i j` encodes the
digit `g i j + 1`). -/
abbrev Grid9 := Fin 9 → Fin 9 → Fin 9

/-- Decode a `Grid9` to a board of digits 1..9. -/
def toBoard (g : Grid9) : Board :=
  fun i j => (g i j).val + 1

/-- Encode a board whose values lie in 1..9 as a `Grid9`. -/
def encodeBoard (b : Board) : Grid9 :=
  fun i j => ⟨(b i j - 1) % 9, Nat.mod_lt _ (by omega)⟩

/-- The solutions of `b`, as a finite set of full grids. -/
def solSet (b : Board) : Finset Grid9 :=
  Finset.univ.filter (fun g => Solves b (toBoard g))

/-- The number of assignments of digits 1..9 to the empty cells of `b` that
complete it to a full grid satisfying all row, column and box constraints. -/
def solCard (b : Board) : Nat :=
  (solSet b).card

-- ——————————————————————————————————————————————————————————————————————————
-- Basic facts about cells and `setCell`.
-- ——————————————————————————————————————————————————————————————————————————

theorem setCell_same (b : Board) (r c : Fin 9) (v : Nat) :
    setCell b r c v r c = v := by
  simp [setCell]

theorem setCell_ne (b : Board) (r c : Fin 9) (v : Nat) {i j : Fin 9}
    (h : ¬(i = r ∧ j = c)) : setCell b r c v i j = b i j := by
  simp [setCell, h]

theorem setCell_setCell (b : Board) (r c : Fin 9) (v w : Nat) :
    setCell (setCell b r c v) r c w = setCell b r c w := by
  funext i j
  by_cases h : i = r ∧ j = c <;> simp [setCell, h]

theorem setCell_self (b : Board) (r c : Fin 9) (h : b r c = 0) :
    setCell b r c 0 = b := by
  funext i j
  by_cases hij : i = r ∧ j = c
  · obtain ⟨h1, h2⟩ := hij; subst h1; subst h2; simp [setCell, h]
  · simp [setCell, hij]

theorem mem_allCells (p : Pos) : p ∈ allCells := by
  obtain ⟨r, c⟩ := p
  simp [allCells]

theorem findEmptyCell_eq_none {b : Board} :
    findEmptyCell b = none ↔ ∀ i j : Fin 9, b i j ≠ 0 := by
  constructor
  · intro h i j
    have := List.find?_eq_none.mp h (i, j) (mem_allCells _)
    simpa using this
  · intro h
    apply List.find?_eq_none.mpr
    intro p _
    simpa using h p.1 p.2

theorem findEmptyCell_eq_some {b : Board} {p : Pos}
    (h : findEmptyCell b = some p) : b p.1 p.2 = 0 := by
  have := List.find?_some h
  simpa using this

-- ——————————————————————————————————————————————————————————————————————————
-- Characterizations of the validator.
-- ——————————————————————————————————————————————————————————————————————————

theorem isValidUnitGo_spec (l : List Nat) : ∀ seen : List Nat,
    isValidUnitGo seen l = true ↔
      ((l.filter (fun x => x != 0)).Nodup ∧ ∀ x ∈ l, x ≠ 0 → x ∉ seen) := by
  induction l with
  | nil => intro seen; simp [isValidUnitGo]
  | cons n rest ih =>
    intro seen
    by_cases h0 : n = 0
    · subst h0
      have hgo : isValidUnitGo seen (0 :: rest) = isValidUnitGo seen rest := rfl
      have hfil : (0 :: rest).filter (fun x => x != 0) =
          rest.filter (fun x => x != 0) := by simp
      rw [hgo, ih, hfil]
      simp only [List.mem_cons]
      constructor
      · rintro ⟨h1, h2⟩
        exact ⟨h1, fun x hx hxne => h2 x (hx.resolve_left hxne) hxne⟩
      · rintro ⟨h1, h2⟩
        exact ⟨h1, fun x hx hxne => h2 x (Or.inr hx) hxne⟩
    · by_cases hseen : n ∈ seen
      · have hgo : isValidUnitGo seen (n :: rest) = false := by
          unfold isValidUnitGo; rw [if_neg h0, if_pos hseen]
        rw [hgo]
        simp only [Bool.false_eq_true, false_iff, not_and]
        intro _ h2
        exact absurd hseen (h2 n (List.mem_cons_self _ _) h0)
      · have hgo : isValidUnitGo seen (n :: rest) = isValidUnitGo (n :: seen) rest := by
          rw [show isValidUnitGo seen (n :: rest) =
            (if n = 0 then isValidUnitGo seen rest
             else if n ∈ seen then false else isValidUnitGo (n :: seen) rest) from rfl]
          rw [if_neg h0, if_neg hseen]
        have hfil : (n :: rest).filter (fun x => x != 0) =
            n :: rest.filter (fun x => x != 0) := by
          simp [List.filter_cons, h0]
        rw [hgo, ih, hfil]
        simp only [List.nodup_cons, List.mem_filter, List.mem_cons, not_or]
        constructor
        · rintro ⟨h1, h2⟩
          refine ⟨⟨?_, h1⟩, ?_⟩
          · rintro ⟨hmem, hne⟩
            exact (h2 n hmem (by simpa using hne)).1 rfl
          · intro x hx hxne
            rcases hx with h | h
            · subst h; exact hseen
            · exact (h2 x h hxne).2
        · rintro ⟨⟨h1a, h1b⟩, h2⟩
          refine ⟨h1b, ?_⟩
          intro x hx hxne
          refine ⟨?_, h2 x (Or.inr hx) hxne⟩
          intro heq
          subst heq
          exact h1a ⟨hx, by simpa using hxne⟩

theorem isValidUnit_iff_nodup (l : List Nat) :
    isValidUnit l = true ↔ (l.filter (fun x => x != 0)).Nodup := by
  rw [isValidUnit, isValidUnitGo_spec]
  simp

theorem isValidUnit_map_iff (f : Fin 9 → Nat) :
    isValidUnit ((List.finRange 9).map f) = true ↔
      ∀ i j : Fin 9, i ≠ j → f i ≠ 0 → f i ≠ f j := by
  rw [isValidUnit_iff_nodup, List.filter_map]
  rw [List.nodup_map_iff_inj_on (List.Nodup.filter _ (List.nodup_finRange 9))]
  constructor
  · intro h i j hij hi heq
    have hi' : i ∈ (List.finRange 9).filter ((fun x => x != 0) ∘ f) := by
      simp [List.mem_filter, List.mem_finRange, hi]
    have hj' : j ∈ (List.finRange 9).filter ((fun x => x != 0) ∘ f) := by
      have : f j ≠ 0 := by rw [← heq]; exact hi
      simp [List.mem_filter, List.mem_finRange, this]
    exact hij (h i hi' j hj' heq)
  · intro h i hi j hj heq
    by_contra hne
    have hfi : f i ≠ 0 := by
      simpa using (List.mem_filter.mp hi).2
    exact h i j hne hfi heq

theorem isBoardComplete_iff {b : Board} :
    isBoardComplete b = true ↔ ∀ i j : Fin 9, b i j ≠ 0 := by
  simp only [isBoardComplete, List.all_eq_true]
  constructor
  · intro h i j
    have := h (i, j) (mem_allCells _)
    simpa using this
  · intro h p _
    simpa using h p.1 p.2

theorem isValidUnit_boxList_iff (b : Board) (br bc : Fin 3) :
    isValidUnit (boxList b br bc) = true ↔
      ∀ p q : Pos, p.1.val / 3 = br.val → p.2.val / 3 = bc.val →
        q.1.val / 3 = br.val → q.2.val / 3 = bc.val → p ≠ q →
        b p.1 p.2 ≠ 0 → b p.1 p.2 ≠ b q.1 q.2 := by
  rw [boxList, isValidUnit_map_iff]
  have hcell : ∀ p : Pos, p.1.val / 3 = br.val → p.2.val / 3 = bc.val →
      ∀ k : Fin 9, k.val = p.1.val % 3 * 3 + p.2.val % 3 →
      (boxCell br bc k).1 = p.1 ∧ (boxCell br bc k).2 = p.2 := by
    intro p hp1 hp2 k hk
    have h1 := p.1.isLt
    have h2 := p.2.isLt
    constructor
    · exact Fin.ext (by show br.val * 3 + k.val / 3 = p.1.val; omega)
    · exact Fin.ext (by show bc.val * 3 + k.val % 3 = p.2.val; omega)
  constructor
  · intro h p q hp1 hp2 hq1 hq2 hpq h0
    have hk1lt : p.1.val % 3 * 3 + p.2.val % 3 < 9 := by omega
    have hk2lt : q.1.val % 3 * 3 + q.2.val % 3 < 9 := by omega
    obtain ⟨e11, e12⟩ := hcell p hp1 hp2 ⟨_, hk1lt⟩ rfl
    obtain ⟨e21, e22⟩ := hcell q hq1 hq2 ⟨_, hk2lt⟩ rfl
    have hkne : (⟨_, hk1lt⟩ : Fin 9) ≠ ⟨_, hk2lt⟩ := by
      intro he
      apply hpq
      have hv : p.1.val % 3 * 3 + p.2.val % 3 = q.1.val % 3 * 3 + q.2.val % 3 :=
        congrArg Fin.val he
      have hp2lt := p.2.isLt
      have hq2lt := q.2.isLt
      refine Prod.ext (Fin.ext ?_) (Fin.ext ?_) <;> omega
    have := h ⟨_, hk1lt⟩ ⟨_, hk2lt⟩ hkne
    rw [e11, e12, e21, e22] at this
    exact this h0
  · intro h k1 k2 hk h0 heq
    have e1p1 : (boxCell br bc k1).1.val / 3 = br.val := by
      show (br.val * 3 + k1.val / 3) / 3 = br.val
      have := k1.isLt; omega
    have e1p2 : (boxCell br bc k1).2.val / 3 = bc.val := by
      show (bc.val * 3 + k1.val % 3) / 3 = bc.val
      have := k1.isLt; omega
    have e2p1 : (boxCell br bc k2).1.val / 3 = br.val := by
      show (br.val * 3 + k2.val / 3) / 3 = br.val
      have := k2.isLt; omega
    have e2p2 : (boxCell br bc k2).2.val / 3 = bc.val := by
      show (bc.val * 3 + k2.val % 3) / 3 = bc.val
      have := k2.isLt; omega
    have hpne : (boxCell br bc k1) ≠ (boxCell br bc k2) := by
      intro he
      apply hk
      have hv1 : (boxCell br bc k1).1.val = (boxCell br bc k2).1.val := by rw [he]
      have hv2 : (boxCell br bc k1).2.val = (boxCell br bc k2).2.val := by rw [he]
      have hv1' : br.val * 3 + k1.val / 3 = br.val * 3 + k2.val / 3 := hv1
      have hv2' : bc.val * 3 + k1.val % 3 = bc.val * 3 + k2.val % 3 := hv2
      exact Fin.ext (by omega)
    exact h (boxCell br bc k1) (boxCell br bc k2) e1p1 e1p2 e2p1 e2p2 hpne h0 heq

theorem validateSudokuBoard_iff {b : Board} :
    validateSudokuBoard b = true ↔ ValidB b := by
  unfold validateSudokuBoard ValidB
  simp only [Bool.and_eq_true, List.all_eq_true, List.mem_finRange, true_implies]
  constructor
  · rintro ⟨⟨hrows, hcols⟩, hboxes⟩
    refine ⟨?_, ?_, ?_⟩
    · intro r c1 c2 hne h0
      exact (isValidUnit_map_iff (fun c => b r c)).mp (hrows r) c1 c2 hne h0
    · intro c r1 r2 hne h0
      exact (isValidUnit_map_iff (fun r => b r c)).mp (hcols c) r1 r2 hne h0
    · intro p q hpq hdr hdc h0
      have hbrlt : p.1.val / 3 < 3 := by have := p.1.isLt; omega
      have hbclt : p.2.val / 3 < 3 := by have := p.2.isLt; omega
      exact (isValidUnit_boxList_iff b ⟨_, hbrlt⟩ ⟨_, hbclt⟩).mp
        (hboxes ⟨_, hbrlt⟩ ⟨_, hbclt⟩) p q rfl rfl hdr.symm hdc.symm hpq h0
  · rintro ⟨hrows, hcols, hboxes⟩
    refine ⟨⟨?_, ?_⟩, ?_⟩
    · intro r
      exact (isValidUnit_map_iff (fun c => b r c)).mpr (fun i j h h0 => hrows r i j h h0)
    · intro c
      exact (isValidUnit_map_iff (fun r => b r c)).mpr (fun i j h h0 => hcols c i j h h0)
    · intro br bc
      refine (isValidUnit_boxList_iff b br bc).mpr ?_
      intro p q hp1 hp2 hq1 hq2 hpq h0
      exact hboxes p q hpq (by omega) (by omega) h0

theorem isValidPlacement_iff (b : Board) (row col : Fin 9) (v : Nat) :
    isValidPlacement b row col v = true ↔
      (v = 0 ∨
        ((∀ c : Fin 9, c ≠ col → b row c ≠ v) ∧
         (∀ r : Fin 9, r ≠ row → b r col ≠ v) ∧
         (∀ p : Pos, p.1.val / 3 = row.val / 3 → p.2.val / 3 = col.val / 3 →
            p ≠ (row, col) → b p.1 p.2 ≠ v))) := by
  by_cases hv : v = 0
  · simp [isValidPlacement, hv]
  · rw [isValidPlacement, if_neg hv]
    simp only [Bool.and_eq_true, List.all_eq_true, List.mem_finRange, true_implies,
      Bool.or_eq_true, beq_iff_eq, Bool.not_eq_true', beq_eq_false_iff_ne]
    constructor
    · rintro ⟨⟨hrow, hcol⟩, hbox⟩
      refine Or.inr ⟨?_, ?_, ?_⟩
      · intro c hc
        rcases hrow c with h | h
        · exact absurd h hc
        · exact h
      · intro r hr
        rcases hcol r with h | h
        · exact absurd h hr
        · exact h
      · intro p hp1 hp2 hpne
        have hdr : p.1.val % 3 < 3 := by omega
        have hdc : p.2.val % 3 < 3 := by omega
        have he1 : (boxScanCell row col ⟨_, hdr⟩ ⟨_, hdc⟩).1 = p.1 := Fin.ext (by
          show row.val / 3 * 3 + p.1.val % 3 = p.1.val
          have := p.1.isLt; omega)
        have he2 : (boxScanCell row col ⟨_, hdr⟩ ⟨_, hdc⟩).2 = p.2 := Fin.ext (by
          show col.val / 3 * 3 + p.2.val % 3 = p.2.val
          have := p.2.isLt; omega)
        have hinst := hbox ⟨_, hdr⟩ ⟨_, hdc⟩
        rw [he1, he2] at hinst
        rcases hinst with ⟨ha, hb⟩ | h
        · exact absurd (Prod.ext ha hb) hpne
        · exact h
    · rintro (h | ⟨hrow, hcol, hbox⟩)
      · exact absurd h hv
      refine ⟨⟨?_, ?_⟩, ?_⟩
      · intro c
        by_cases hc : c = col
        · exact Or.inl hc
        · exact Or.inr (hrow c hc)
      · intro r
        by_cases hr : r = row
        · exact Or.inl hr
        · exact Or.inr (hcol r hr)
      · intro dr dc
        have hin1 : (boxScanCell row col dr dc).1.val / 3 = row.val / 3 := by
          show (row.val / 3 * 3 + dr.val) / 3 = row.val / 3
          have := dr.isLt; have := row.isLt; omega
        have hin2 : (boxScanCell row col dr dc).2.val / 3 = col.val / 3 := by
          show (col.val / 3 * 3 + dc.val) / 3 = col.val / 3
          have := dc.isLt; have := col.isLt; omega
        by_cases hp : boxScanCell row col dr dc = (row, col)
        · exact Or.inl ⟨congrArg Prod.fst hp, congrArg Prod.snd hp⟩
        · exact Or.inr (hbox _ hin1 hin2 hp)

-- ——————————————————————————————————————————————————————————————————————————
-- `setCell` preserves validity and value bounds.
-- ——————————————————————————————————————————————————————————————————————————

theorem setCell_eq_of (b : Board) (r c : Fin 9) (v : Nat) {i j : Fin 9}
    (h : i = r ∧ j = c) : setCell b r c v i j = v := by
  simp [setCell, h]

theorem validB_setCell {b : Board} (hb : ValidB b) (row col : Fin 9) (v : Nat)
    (hp : isValidPlacement b row col v = true) : ValidB (setCell b row col v) := by
  obtain ⟨hbr, hbc, hbb⟩ := hb
  rcases (isValidPlacement_iff b row col v).mp hp with hv0 | ⟨hrow, hcol, hbox⟩
  · subst hv0
    refine ⟨?_, ?_, ?_⟩
    · intro r c1 c2 hne h0
      by_cases h1 : r = row ∧ c1 = col
      · rw [setCell_eq_of b row col 0 h1] at h0
        exact absurd rfl h0
      · rw [setCell_ne b row col 0 h1] at h0 ⊢
        by_cases h2 : r = row ∧ c2 = col
        · rw [setCell_eq_of b row col 0 h2]
          exact h0
        · rw [setCell_ne b row col 0 h2]
          exact hbr r c1 c2 hne h0
    · intro c r1 r2 hne h0
      by_cases h1 : r1 = row ∧ c = col
      · rw [setCell_eq_of b row col 0 h1] at h0
        exact absurd rfl h0
      · rw [setCell_ne b row col 0 h1] at h0 ⊢
        by_cases h2 : r2 = row ∧ c = col
        · rw [setCell_eq_of b row col 0 h2]
          exact h0
        · rw [setCell_ne b row col 0 h2]
          exact hbc c r1 r2 hne h0
    · intro p q hpq hd1 hd2 h0
      by_cases h1 : p.1 = row ∧ p.2 = col
      · rw [setCell_eq_of b row col 0 h1] at h0
        exact absurd rfl h0
      · rw [setCell_ne b row col 0 h1] at h0 ⊢
        by_cases h2 : q.1 = row ∧ q.2 = col
        · rw [setCell_eq_of b row col 0 h2]
          exact h0
        · rw [setCell_ne b row col 0 h2]
          exact hbb p q hpq hd1 hd2 h0
  · refine ⟨?_, ?_, ?_⟩
    · intro r c1 c2 hne h0
      by_cases h1 : r = row ∧ c1 = col
      · rw [setCell_eq_of b row col v h1] at h0 ⊢
        have h2 : ¬(r = row ∧ c2 = col) := by
          rintro ⟨-, hc2⟩
          exact hne (h1.2.trans hc2.symm)
        rw [setCell_ne b row col v h2]
        obtain ⟨hr1, hc1⟩ := h1
        subst hr1
        have hc2col : c2 ≠ col := fun hh => hne (hc1.trans hh.symm)
        exact fun hh => (hrow c2 hc2col) hh.symm
      · rw [setCell_ne b row col v h1] at h0 ⊢
        by_cases h2 : r = row ∧ c2 = col
        · rw [setCell_eq_of b row col v h2]
          obtain ⟨hr2, hc2⟩ := h2
          subst hr2
          have hc1col : c1 ≠ col := fun hh => h1 ⟨rfl, hh⟩
          exact hrow c1 hc1col
        · rw [setCell_ne b row col v h2]
          exact hbr r c1 c2 hne h0
    · intro c r1 r2 hne h0
      by_cases h1 : r1 = row ∧ c = col
      · rw [setCell_eq_of b row col v h1] at h0 ⊢
        have h2 : ¬(r2 = row ∧ c = col) := by
          rintro ⟨hr2, -⟩
          exact hne (h1.1.trans hr2.symm)
        rw [setCell_ne b row col v h2]
        obtain ⟨hr1, hc1⟩ := h1
        subst hc1
        have hr2row : r2 ≠ row := fun hh => hne (hr1.trans hh.symm)
        exact fun hh => (hcol r2 hr2row) hh.symm
      · rw [setCell_ne b row col v h1] at h0 ⊢
        by_cases h2 : r2 = row ∧ c = col
        · rw [setCell_eq_of b row col v h2]
          obtain ⟨hr2, hc2⟩ := h2
          subst hc2
          have hr1row : r1 ≠ row := fun hh => h1 ⟨hh, rfl⟩
          exact hcol r1 hr1row
        · rw [setCell_ne b row col v h2]
          exact hbc c r1 r2 hne h0
    · intro p q hpq hd1 hd2 h0
      by_cases h1 : p.1 = row ∧ p.2 = col
      · rw [setCell_eq_of b row col v h1] at h0 ⊢
        have hpeq : p = (row, col) := Prod.ext h1.1 h1.2
        have hqne : q ≠ (row, col) := fun hh => hpq (hpeq.trans hh.symm)
        have h2 : ¬(q.1 = row ∧ q.2 = col) := fun hh => hqne (Prod.ext hh.1 hh.2)
        rw [setCell_ne b row col v h2]
        have hq1 : q.1.val / 3 = row.val / 3 := by rw [← hd1, h1.1]
        have hq2 : q.2.val / 3 = col.val / 3 := by rw [← hd2, h1.2]
        exact fun hh => (hbox q hq1 hq2 hqne) hh.symm
      · rw [setCell_ne b row col v h1] at h0 ⊢
        by_cases h2 : q.1 = row ∧ q.2 = col
        · rw [setCell_eq_of b row col v h2]
          have hpne : p ≠ (row, col) :=
            fun hh => h1 ⟨congrArg Prod.fst hh, congrArg Prod.snd hh⟩
          have hp1 : p.1.val / 3 = row.val / 3 := by rw [hd1, h2.1]
          have hp2 : p.2.val / 3 = col.val / 3 := by rw [hd2, h2.2]
          exact hbox p hp1 hp2 hpne
        · rw [setCell_ne b row col v h2]
          exact hbb p q hpq hd1 hd2 h0

theorem okBoard_setCell {b : Board} (hb : okBoard b) (row col : Fin 9) {v : Nat}
    (hv : v ≤ 9) : okBoard (setCell b row col v) := by
  intro i j
  by_cases h : i = row ∧ j = col
  · rw [setCell_eq_of b row col v h]
    exact hv
  · rw [setCell_ne b row col v h]
    exact hb i j

-- ——————————————————————————————————————————————————————————————————————————
-- One-step unfolding equations for the solver and counter.
-- ——————————————————————————————————————————————————————————————————————————

theorem solveLoop_cons (recur : Board → Bool × Board) (row col : Fin 9)
    (num : Nat) (rest : List Nat) (cur : Board) :
    solveLoop recur row col (num :: rest) cur =
      if isValidPlacement cur row col num then
        match recur (setCell cur row col num) with
        | (true, b2) => (true, b2)
        | (false, b2) => solveLoop recur row col rest (setCell b2 row col 0)
      else solveLoop recur row col rest cur := rfl

theorem solveAux_succ (fuel : Nat) (b : Board) :
    solveAux (fuel + 1) b =
      match findEmptyCell b with
      | none => (true, b)
      | some (row, col) =>
        solveLoop (solveAux fuel) row col [1, 2, 3, 4, 5, 6, 7, 8, 9] b := rfl

theorem countLoop_cons (recur : Board → Nat → Nat × Board) (row col : Fin 9)
    (num : Nat) (rest : List Nat) (cur : Board) (k : Nat) :
    countLoop recur row col (num :: rest) cur k =
      if isValidPlacement cur row col num then
        match recur (setCell cur row col num) k with
        | (k2, b2) =>
          if k2 > 1 then (k2, setCell b2 row col 0)
          else countLoop recur row col rest (setCell b2 row col 0) k2
      else countLoop recur row col rest cur k := rfl

theorem countAux_succ (fuel : Nat) (b : Board) (k : Nat) :
    countAux (fuel + 1) b k =
      match findEmptyCell b with
      | none => (k + 1, b)
      | some (row, col) =>
        if k > 1 then (k, b)
        else countLoop (countAux fuel) row col [1, 2, 3, 4, 5, 6, 7, 8, 9] b k := rfl

-- ——————————————————————————————————————————————————————————————————————————
-- Restoration: a failed solve (and every count) leaves the board unchanged.
-- ——————————————————————————————————————————————————————————————————————————

theorem solveLoop_restore (fuel : Nat) (row col : Fin 9)
    (hIH : ∀ b', (solveAux fuel b').1 = false → (solveAux fuel b').2 = b')
    (b : Board) (h0 : b row col = 0) :
    ∀ nums, (solveLoop (solveAux fuel) row col nums b).1 = false →
      (solveLoop (solveAux fuel) row col nums b).2 = b := by
  intro nums
  induction nums with
  | nil => intro _; rfl
  | cons num rest ih =>
    intro hfail
    by_cases hp : isValidPlacement b row col num = true
    · rcases hrec : solveAux fuel (setCell b row col num) with ⟨ok, b2⟩
      cases ok with
      | true =>
        rw [solveLoop_cons, if_pos hp, hrec] at hfail
        simp at hfail
      | false =>
        have hb2 : b2 = setCell b row col num := by
          have h := hIH (setCell b row col num)
          rw [hrec] at h
          exact h rfl
        rw [solveLoop_cons, if_pos hp, hrec] at hfail ⊢
        simp only at hfail ⊢
        rw [hb2, setCell_setCell, setCell_self _ _ _ h0] at hfail ⊢
        exact ih hfail
    · rw [solveLoop_cons, if_neg hp] at hfail ⊢
      exact ih hfail

theorem solveAux_restore : ∀ fuel (b : Board),
    (solveAux fuel b).1 = false → (solveAux fuel b).2 = b := by
  intro fuel
  induction fuel with
  | zero => intro b _; rfl
  | succ f ih =>
    intro b hfail
    rcases hfind : findEmptyCell b with - | p
    · rw [solveAux_succ, hfind] at hfail
      simp at hfail
    · obtain ⟨row, col⟩ := p
      have h0 : b row col = 0 := findEmptyCell_eq_some hfind
      rw [solveAux_succ, hfind] at hfail ⊢
      exact solveLoop_restore f row col ih b h0 _ hfail

theorem countLoop_restore (fuel : Nat) (row col : Fin 9)
    (hIH : ∀ b' k, (countAux fuel b' k).2 = b')
    (b : Board) (h0 : b row col = 0) :
    ∀ nums k, (countLoop (countAux fuel) row col nums b k).2 = b := by
  intro nums
  induction nums with
  | nil => intro k; rfl
  | cons num rest ih =>
    intro k
    by_cases hp : isValidPlacement b row col num = true
    · rcases hrec : countAux fuel (setCell b row col num) k with ⟨k2, b2⟩
      have hb2 : b2 = setCell b row col num := by
        have h := hIH (setCell b row col num) k
        rw [hrec] at h
        exact h
      rw [countLoop_cons, if_pos hp, hrec]
      simp only
      rw [hb2, setCell_setCell, setCell_self _ _ _ h0]
      by_cases hk : k2 > 1
      · rw [if_pos hk]
      · rw [if_neg hk]
        exact ih k2
    · rw [countLoop_cons, if_neg hp]
      exact ih k

theorem countAux_restore : ∀ fuel (b : Board) (k : Nat),
    (countAux fuel b k).2 = b := by
  intro fuel
  induction fuel with
  | zero => intro b k; rfl
  | succ f ih =>
    intro b k
    rcases hfind : findEmptyCell b with - | p
    · rw [countAux_succ, hfind]
    · obtain ⟨row, col⟩ := p
      have h0 : b row col = 0 := findEmptyCell_eq_some hfind
      rw [countAux_succ, hfind]
      simp only
      by_cases hk : k > 1
      · rw [if_pos hk]
      · rw [if_neg hk]
        exact countLoop_restore f row col ih b h0 _ k

-- ——————————————————————————————————————————————————————————————————————————
-- Soundness: a successful solve yields a complete valid board.
-- ——————————————————————————————————————————————————————————————————————————

theorem solveLoop_sound (fuel : Nat) (row col : Fin 9)
    (hIH : ∀ b', ValidB b' → okBoard b' → (solveAux fuel b').1 = true →
      ValidB (solveAux fuel b').2 ∧ okBoard (solveAux fuel b').2 ∧
        ∀ i j : Fin 9, (solveAux fuel b').2 i j ≠ 0)
    (b : Board) (hb : ValidB b) (hok : okBoard b) (h0 : b row col = 0) :
    ∀ nums, (∀ u ∈ nums, u ≤ 9) →
      (solveLoop (solveAux fuel) row col nums b).1 = true →
      ValidB (solveLoop (solveAux fuel) row col nums b).2 ∧
        okBoard (solveLoop (solveAux fuel) row col nums b).2 ∧
        ∀ i j : Fin 9, (solveLoop (solveAux fuel) row col nums b).2 i j ≠ 0 := by
  intro nums
  induction nums with
  | nil =>
    intro _ htrue
    simp [solveLoop] at htrue
  | cons num rest ih =>
    intro hle htrue
    have hnum9 : num ≤ 9 := hle num (List.mem_cons_self _ _)
    have hrest : ∀ u ∈ rest, u ≤ 9 := fun u hu => hle u (List.mem_cons_of_mem _ hu)
    by_cases hp : isValidPlacement b row col num = true
    · rcases hrec : solveAux fuel (setCell b row col num) with ⟨ok, b2⟩
      cases ok with
      | true =>
        have hval : ValidB (setCell b row col num) := validB_setCell hb row col num hp
        have hok2 : okBoard (setCell b row col num) := okBoard_setCell hok row col hnum9
        have h := hIH (setCell b row col num) hval hok2
        rw [hrec] at h
        have h' := h rfl
        rw [solveLoop_cons, if_pos hp, hrec]
        exact h'
      | false =>
        have hb2 : b2 = setCell b row col num := by
          have h := solveAux_restore fuel (setCell b row col num)
          rw [hrec] at h
          exact h rfl
        rw [solveLoop_cons, if_pos hp, hrec] at htrue ⊢
        simp only at htrue ⊢
        rw [hb2, setCell_setCell, setCell_self _ _ _ h0] at htrue ⊢
        exact ih hrest htrue
    · rw [solveLoop_cons, if_neg hp] at htrue ⊢
      exact ih hrest htrue

theorem solveAux_sound : ∀ fuel (b : Board), ValidB b → okBoard b →
    (solveAux fuel b).1 = true →
    ValidB (solveAux fuel b).2 ∧ okBoard (solveAux fuel b).2 ∧
      ∀ i j : Fin 9, (solveAux fuel b).2 i j ≠ 0 := by
  intro fuel
  induction fuel with
  | zero =>
    intro b _ _ htrue
    simp [solveAux] at htrue
  | succ f ih =>
    intro b hb hok htrue
    rcases hfind : findEmptyCell b with - | p
    · rw [solveAux_succ, hfind] at htrue ⊢
      exact ⟨hb, hok, findEmptyCell_eq_none.mp hfind⟩
    · obtain ⟨row, col⟩ := p
      have h0 : b row col = 0 := findEmptyCell_eq_some hfind
      rw [solveAux_succ, hfind] at htrue ⊢
      exact solveLoop_sound f row col ih b hb hok h0 _ (by decide) htrue

-- ——————————————————————————————————————————————————————————————————————————
-- Empty-cell counting (justifies the fuel bound).
-- ——————————————————————————————————————————————————————————————————————————

theorem emptyCount_le (b : Board) : emptyCount b ≤ 81 := by
  have h := Finset.card_filter_le Finset.univ (fun p : Pos => b p.1 p.2 = 0)
  simpa using h

theorem emptyCount_setCell {b : Board} {row col : Fin 9} (h0 : b row col = 0)
    {v : Nat} (hv : v ≠ 0) :
    emptyCount (setCell b row col v) + 1 = emptyCount b := by
  have hset : (Finset.univ.filter (fun p : Pos => setCell b row col v p.1 p.2 = 0)) =
      (Finset.univ.filter (fun p : Pos => b p.1 p.2 = 0)).erase (row, col) := by
    ext p
    simp only [Finset.mem_filter, Finset.mem_univ, true_and, Finset.mem_erase]
    constructor
    · intro h
      by_cases hpc : p.1 = row ∧ p.2 = col
      · rw [setCell_eq_of b row col v hpc] at h
        exact absurd h hv
      · rw [setCell_ne b row col v hpc] at h
        refine ⟨?_, h⟩
        intro he
        exact hpc ⟨congrArg Prod.fst he, congrArg Prod.snd he⟩
    · rintro ⟨hne, h⟩
      have hpc : ¬(p.1 = row ∧ p.2 = col) :=
        fun hh => hne (Prod.ext hh.1 hh.2)
      rw [setCell_ne b row col v hpc]
      exact h
  have hmem : ((row, col) : Pos) ∈
      Finset.univ.filter (fun p : Pos => b p.1 p.2 = 0) := by
    simp only [Finset.mem_filter, Finset.mem_univ, true_and]
    exact h0
  have hpos : 0 < emptyCount b := Finset.card_pos.mpr ⟨_, hmem⟩
  unfold emptyCount
  rw [hset, Finset.card_erase_of_mem hmem]
  unfold emptyCount at hpos
  omega

-- ——————————————————————————————————————————————————————————————————————————
-- Completeness: if a solution exists, the solver finds one.
-- ——————————————————————————————————————————————————————————————————————————

theorem mem_digits {n : Nat} (h1 : 1 ≤ n) (h2 : n ≤ 9) :
    n ∈ ([1, 2, 3, 4, 5, 6, 7, 8, 9] : List Nat) := by
  interval_cases n <;> simp

theorem solves_isValidPlacement {b s : Board} (hs : Solves b s) {row col : Fin 9}
    (_h0 : b row col = 0) : isValidPlacement b row col (s row col) = true := by
  obtain ⟨hext, hrange, hvr, hvc, hvb⟩ := hs
  apply (isValidPlacement_iff b row col (s row col)).mpr
  refine Or.inr ⟨?_, ?_, ?_⟩
  · intro c hc heq
    have hbc : b row c ≠ 0 := by
      intro hz
      rw [hz] at heq
      have := (hrange row col).1
      omega
    have hseq : s row c = b row c := hext row c hbc
    have : s row c ≠ s row col := hvr row c col hc (by
      have := (hrange row c).1; omega)
    exact this (hseq.trans heq)
  · intro r hr heq
    have hbr : b r col ≠ 0 := by
      intro hz
      rw [hz] at heq
      have := (hrange row col).1
      omega
    have hseq : s r col = b r col := hext r col hbr
    have : s r col ≠ s row col := hvc col r row hr (by
      have := (hrange r col).1; omega)
    exact this (hseq.trans heq)
  · intro p hp1 hp2 hpne heq
    have hbp : b p.1 p.2 ≠ 0 := by
      intro hz
      rw [hz] at heq
      have := (hrange row col).1
      omega
    have hseq : s p.1 p.2 = b p.1 p.2 := hext p.1 p.2 hbp
    have : s p.1 p.2 ≠ s row col := hvb p (row, col) hpne hp1 hp2 (by
      have := (hrange p.1 p.2).1; omega)
    exact this (hseq.trans heq)

theorem solves_setCell {b s : Board} (hs : Solves b s) {row col : Fin 9}
    (h0 : b row col = 0) : Solves (setCell b row col (s row col)) s := by
  obtain ⟨hext, hrange, hvalid⟩ := hs
  refine ⟨?_, hrange, hvalid⟩
  intro i j hne
  by_cases hpc : i = row ∧ j = col
  · obtain ⟨h1, h2⟩ := hpc
    subst h1; subst h2
    rw [setCell_eq_of b i j (s i j) ⟨rfl, rfl⟩]
  · rw [setCell_ne b row col _ hpc] at hne ⊢
    exact hext i j hne

theorem solveLoop_complete (fuel : Nat) (row col : Fin 9)
    (hIH : ∀ b', emptyCount b' < fuel → (∃ s, Solves b' s) →
      (solveAux fuel b').1 = true)
    (b : Board) (h0 : b row col = 0) (hcnt : emptyCount b ≤ fuel)
    (s : Board) (hs : Solves b s) :
    ∀ nums, s row col ∈ nums →
      (solveLoop (solveAux fuel) row col nums b).1 = true := by
  intro nums
  induction nums with
  | nil => intro hmem; simp at hmem
  | cons num rest ih =>
    intro hmem
    have hsval : 1 ≤ s row col := (hs.2.1 row col).1
    by_cases hp : isValidPlacement b row col num = true
    · rcases hrec : solveAux fuel (setCell b row col num) with ⟨ok, b2⟩
      cases ok with
      | true =>
        rw [solveLoop_cons, if_pos hp, hrec]
      | false =>
        have hnum : num ≠ s row col := by
          intro he
          have hsolves : Solves (setCell b row col num) s := by
            rw [he]
            exact solves_setCell hs h0
          have hnz : num ≠ 0 := by omega
          have hlt : emptyCount (setCell b row col num) < fuel := by
            have := emptyCount_setCell h0 (v := num) hnz
            omega
          have h := hIH _ hlt ⟨s, hsolves⟩
          rw [hrec] at h
          simp at h
        have hmem' : s row col ∈ rest := by
          rcases List.mem_cons.mp hmem with he | hm
          · exact absurd he.symm hnum
          · exact hm
        have hb2 : b2 = setCell b row col num := by
          have h := solveAux_restore fuel (setCell b row col num)
          rw [hrec] at h
          exact h rfl
        rw [solveLoop_cons, if_pos hp, hrec]
        simp only
        rw [hb2, setCell_setCell, setCell_self _ _ _ h0]
        exact ih hmem'
    · have hnum : num ≠ s row col := by
        intro he
        exact hp (he ▸ solves_isValidPlacement hs h0)
      have hmem' : s row col ∈ rest := by
        rcases List.mem_cons.mp hmem with he | hm
        · exact absurd he.symm hnum
        · exact hm
      rw [solveLoop_cons, if_neg hp]
      exact ih hmem'

theorem solveAux_complete : ∀ fuel (b : Board), emptyCount b < fuel →
    (∃ s, Solves b s) → (solveAux fuel b).1 = true := by
  intro fuel
  induction fuel with
  | zero => intro b hcnt _; omega
  | succ f ih =>
    rintro b hcnt ⟨s, hs⟩
    rcases hfind : findEmptyCell b with - | p
    · rw [solveAux_succ, hfind]
    · obtain ⟨row, col⟩ := p
      have h0 : b row col = 0 := findEmptyCell_eq_some hfind
      rw [solveAux_succ, hfind]
      have hmem : s row col ∈ ([1, 2, 3, 4, 5, 6, 7, 8, 9] : List Nat) :=
        mem_digits (hs.2.1 row col).1 (hs.2.1 row col).2
      exact solveLoop_complete f row col ih b h0 (by omega) s hs _ hmem

-- ——————————————————————————————————————————————————————————————————————————
-- Counting solutions: `countSolutions` computes `min (solCard b) 2`.
-- ——————————————————————————————————————————————————————————————————————————

theorem toBoard_encode {b : Board} (h : InRange9 b) : toBoard (encodeBoard b) = b := by
  funext i j
  have := h i j
  simp only [toBoard, encodeBoard]
  omega

theorem toBoard_inj {g1 g2 : Grid9} (h : toBoard g1 = toBoard g2) : g1 = g2 := by
  funext i j
  have hv := congrFun (congrFun h i) j
  simp only [toBoard] at hv
  exact Fin.ext (by omega)

theorem inRange9_toBoard (g : Grid9) : InRange9 (toBoard g) := by
  intro i j
  have := (g i j).isLt
  simp only [toBoard]
  omega

theorem mem_solSet {b : Board} {g : Grid9} :
    g ∈ solSet b ↔ Solves b (toBoard g) := by
  simp [solSet]

theorem solSet_complete {b : Board} (hv : ValidB b) (hok : okBoard b)
    (hc : ∀ i j : Fin 9, b i j ≠ 0) : solSet b = {encodeBoard b} := by
  have hbr : InRange9 b := fun i j => ⟨by have := hc i j; omega, hok i j⟩
  ext g
  rw [mem_solSet, Finset.mem_singleton]
  constructor
  · rintro ⟨hext, hrange, hvalid⟩
    have hgb : toBoard g = b := by
      funext i j
      exact hext i j (hc i j)
    apply toBoard_inj
    rw [hgb, toBoard_encode hbr]
  · intro hg
    subst hg
    rw [toBoard_encode hbr]
    exact ⟨fun i j _ => rfl, hbr, hv⟩

theorem solSet_setCell {b : Board} {row col : Fin 9} (h0 : b row col = 0) (t : Fin 9) :
    solSet (setCell b row col (t.val + 1)) =
      (solSet b).filter (fun g => g row col = t) := by
  ext g
  rw [Finset.mem_filter, mem_solSet, mem_solSet]
  constructor
  · rintro ⟨hext, hrange, hvalid⟩
    have hgt : toBoard g row col = t.val + 1 := by
      have := hext row col (by rw [setCell_eq_of b row col _ ⟨rfl, rfl⟩]; omega)
      rw [setCell_eq_of b row col _ ⟨rfl, rfl⟩] at this
      exact this
    refine ⟨⟨?_, hrange, hvalid⟩, ?_⟩
    · intro i j hne
      have hpc : ¬(i = row ∧ j = col) := by
        rintro ⟨h1, h2⟩
        subst h1; subst h2
        exact hne h0
      have := hext i j (by rw [setCell_ne b row col _ hpc]; exact hne)
      rw [setCell_ne b row col _ hpc] at this
      exact this
    · simp only [toBoard] at hgt
      exact Fin.ext (by omega)
  · rintro ⟨⟨hext, hrange, hvalid⟩, hgt⟩
    refine ⟨?_, hrange, hvalid⟩
    intro i j hne
    by_cases hpc : i = row ∧ j = col
    · obtain ⟨h1, h2⟩ := hpc
      subst h1; subst h2
      rw [setCell_eq_of b i j _ ⟨rfl, rfl⟩]
      simp only [toBoard, hgt]
    · rw [setCell_ne b row col _ hpc] at hne ⊢
      exact hext i j hne

theorem solCard_split {b : Board} {row col : Fin 9} (h0 : b row col = 0) :
    solCard b = ∑ t : Fin 9, solCard (setCell b row col (t.val + 1)) := by
  unfold solCard
  rw [Finset.card_eq_sum_card_fiberwise
    (f := fun g : Grid9 => g row col) (t := Finset.univ) (fun g _ => Finset.mem_univ _)]
  refine Finset.sum_congr rfl (fun t _ => ?_)
  rw [solSet_setCell h0 t]

theorem solves_of_solves_setCell {b : Board} {row col : Fin 9} {v : Nat} {s : Board}
    (h0 : b row col = 0) (hs : Solves (setCell b row col v) s) : Solves b s := by
  obtain ⟨hext, hrange, hvalid⟩ := hs
  refine ⟨?_, hrange, hvalid⟩
  intro i j hne
  have hpc : ¬(i = row ∧ j = col) := by
    rintro ⟨h1, h2⟩
    subst h1; subst h2
    exact hne h0
  have := hext i j (by rw [setCell_ne b row col _ hpc]; exact hne)
  rw [setCell_ne b row col _ hpc] at this
  exact this

theorem solCard_invalid {b : Board} {row col : Fin 9} {v : Nat} (h0 : b row col = 0)
    (hp : isValidPlacement b row col v = false) :
    solCard (setCell b row col v) = 0 := by
  unfold solCard
  rw [Finset.card_eq_zero]
  apply Finset.eq_empty_iff_forall_not_mem.mpr
  intro g hg
  rw [mem_solSet] at hg
  have hsb : Solves b (toBoard g) := solves_of_solves_setCell h0 hg
  have hval : toBoard g row col = v := by
    by_cases hv0 : v = 0
    · subst hv0
      have := (inRange9_toBoard g row col).1
      have hvz : isValidPlacement b row col 0 = true := by
        rw [isValidPlacement]
        simp
      rw [hvz] at hp
      cases hp
    · have := hg.1 row col (by rw [setCell_eq_of b row col _ ⟨rfl, rfl⟩]; exact hv0)
      rw [setCell_eq_of b row col _ ⟨rfl, rfl⟩] at this
      exact this
  have hvalid := solves_isValidPlacement hsb h0
  rw [hval, hp] at hvalid
  cases hvalid

theorem countLoop_count (fuel : Nat) (row col : Fin 9)
    (hIH : ∀ (b' : Board) (k : Nat), ValidB b' → okBoard b' → emptyCount b' < fuel →
      k ≤ 1 → countAux fuel b' k = (min (k + solCard b') 2, b'))
    (b : Board) (hb : ValidB b) (hok : okBoard b) (h0 : b row col = 0)
    (hcnt : emptyCount b ≤ fuel) :
    ∀ nums, (∀ u ∈ nums, 1 ≤ u ∧ u ≤ 9) → ∀ k, k ≤ 1 →
      countLoop (countAux fuel) row col nums b k =
        (min (k + (nums.map (fun u => solCard (setCell b row col u))).sum) 2, b) := by
  intro nums
  induction nums with
  | nil =>
    intro _ k hk
    simp only [countLoop, List.map_nil, List.sum_nil]
    rw [show min (k + 0) 2 = k from by omega]
  | cons num rest ih =>
    intro hd k hk
    obtain ⟨h1n, h9n⟩ := hd num (List.mem_cons_self _ _)
    have hdrest : ∀ u ∈ rest, 1 ≤ u ∧ u ≤ 9 :=
      fun u hu => hd u (List.mem_cons_of_mem _ hu)
    rw [List.map_cons, List.sum_cons]
    by_cases hp : isValidPlacement b row col num = true
    · have hvalset : ValidB (setCell b row col num) := validB_setCell hb row col num hp
      have hokset : okBoard (setCell b row col num) := okBoard_setCell hok row col h9n
      have hcntset : emptyCount (setCell b row col num) < fuel := by
        have := emptyCount_setCell h0 (v := num) (by omega)
        omega
      have hrec := hIH (setCell b row col num) k hvalset hokset hcntset hk
      rw [countLoop_cons, if_pos hp, hrec]
      simp only
      rw [setCell_setCell, setCell_self _ _ _ h0]
      by_cases h2 : min (k + solCard (setCell b row col num)) 2 > 1
      · rw [if_pos h2]
        rw [show min (k + solCard (setCell b row col num)) 2 =
          min (k + (solCard (setCell b row col num) +
            (rest.map (fun u => solCard (setCell b row col u))).sum)) 2 from by omega]
      · rw [if_neg h2]
        rw [ih hdrest (min (k + solCard (setCell b row col num)) 2) (by omega)]
        rw [show min (min (k + solCard (setCell b row col num)) 2 +
            (rest.map (fun u => solCard (setCell b row col u))).sum) 2 =
          min (k + (solCard (setCell b row col num) +
            (rest.map (fun u => solCard (setCell b row col u))).sum)) 2 from by omega]
    · have hpfalse : isValidPlacement b row col num = false := by
        cases hq : isValidPlacement b row col num
        · rfl
        · exact absurd hq hp
      have hS0 : solCard (setCell b row col num) = 0 := solCard_invalid h0 hpfalse
      rw [countLoop_cons, if_neg hp, ih hdrest k hk, hS0, Nat.zero_add]

theorem sum_digits_fin (F : Nat → Nat) :
    (([1, 2, 3, 4, 5, 6, 7, 8, 9] : List Nat).map F).sum =
      ∑ t : Fin 9, F (t.val + 1) := by
  simp [Fin.sum_univ_succ]

theorem countAux_count : ∀ fuel (b : Board) (k : Nat), ValidB b → okBoard b →
    emptyCount b < fuel → k ≤ 1 →
    countAux fuel b k = (min (k + solCard b) 2, b) := by
  intro fuel
  induction fuel with
  | zero => intro b k _ _ hcnt _; omega
  | succ f ih =>
    intro b k hb hok hcnt hk
    rcases hfind : findEmptyCell b with - | p
    · have hc := findEmptyCell_eq_none.mp hfind
      have hcard : solCard b = 1 := by
        unfold solCard
        rw [solSet_complete hb hok hc]
        simp
      rw [countAux_succ, hfind, hcard]
      rw [show min (k + 1) 2 = k + 1 from by omega]
    · obtain ⟨row, col⟩ := p
      have h0 : b row col = 0 := findEmptyCell_eq_some hfind
      rw [countAux_succ, hfind]
      simp only
      rw [if_neg (show ¬k > 1 from by omega)]
      rw [countLoop_count f row col ih b hb hok h0 (by omega) _ (by decide) k hk]
      have hsum : (([1, 2, 3, 4, 5, 6, 7, 8, 9] : List Nat).map
          (fun u => solCard (setCell b row col u))).sum = solCard b := by
        rw [sum_digits_fin (fun u => solCard (setCell b row col u))]
        exact (solCard_split h0).symm
      rw [hsum]

theorem hasUnique_iff_solCard {b : Board} (hb : ValidB b) (hok : okBoard b) :
    hasUniqueSolution b = true ↔ solCard b = 1 := by
  have hrun : hasUniqueSolutionRun b = (min (0 + solCard b) 2, b) := by
    show countAux 82 (copyBoard b) 0 = _
    have hcopy : copyBoard b = b := rfl
    rw [hcopy]
    exact countAux_count 82 b 0 hb hok (by have := emptyCount_le b; omega) (by omega)
  rw [hasUniqueSolution, hrun]
  simp only [beq_iff_eq]
  constructor <;> intro h <;> omega

theorem solCard_eq_one_iff {b : Board} :
    solCard b = 1 ↔ ∃! s : Board, Solves b s := by
  constructor
  · intro h
    obtain ⟨g, hg⟩ := Finset.card_eq_one.mp h
    have hgmem : g ∈ solSet b := by
      rw [hg]
      exact Finset.mem_singleton_self g
    rw [mem_solSet] at hgmem
    refine ⟨toBoard g, hgmem, ?_⟩
    intro s hs
    have hrange : InRange9 s := hs.2.1
    have henc : encodeBoard s ∈ solSet b := by
      rw [mem_solSet, toBoard_encode hrange]
      exact hs
    rw [hg, Finset.mem_singleton] at henc
    rw [← toBoard_encode hrange, henc]
  · rintro ⟨s, hs, huniq⟩
    apply Finset.card_eq_one.mpr
    refine ⟨encodeBoard s, ?_⟩
    ext g
    rw [mem_solSet, Finset.mem_singleton]
    constructor
    · intro hgsol
      have hgs : toBoard g = s := huniq (toBoard g) hgsol
      apply toBoard_inj
      rw [hgs, toBoard_encode hs.2.1]
    · intro hg
      subst hg
      rw [toBoard_encode hs.2.1]
      exact hs

-- ——————————————————————————————————————————————————————————————————————————
-- The generator (`client/src/lib/sudoku/generator.ts`, per-difficulty cache
-- version).  `Math.sin` is embedded as an arbitrary fixed function
-- `sinFn : ℚ → ℚ` and the current UTC date string (`getGTMDate`) as a
-- parameter `today`, so every pseudo-random choice is an explicit function of
-- the seed string.
-- ——————————————————————————————————————————————————————————————————————————

/-- Sum of the character codes of the seed (`s += seed.charCodeAt(i)`), the
entire initial state of `seededRandom`. -/
def charSum (seed : String) : ℚ :=
  ((seed.data.map Char.toNat).sum : ℕ)

/-- One call of the closure returned by `seededRandom`:
`s = Math.sin(s) * 10000; return s - Math.floor(s)`.  Returns the output and
the new state. -/
def rngNext (sinFn : ℚ → ℚ) (s : ℚ) : ℚ × ℚ :=
  let s2 := sinFn s * 10000
  (s2 - (⌊s2⌋ : ℚ), s2)

/-- `[result[i], result[j]] = [result[j], result[i]]` (indices are always in
bounds when called from the shuffle). -/
def listSwap {α : Type} (l : List α) (i j : Nat) : List α :=
  match l[i]?, l[j]? with
  | some a, some b => (l.set i b).set j a
  | _, _ => l

/-- One iteration of the Fisher-Yates loop of `seededShuffle`:
`j = Math.floor(random() * (i + 1))`, then swap positions `i` and `j`. -/
def shuffleStep (sinFn : ℚ → ℚ) (st : List α × ℚ) (i : Nat) : List α × ℚ :=
  let r := rngNext sinFn st.2
  let j := (⌊r.1 * ((i : ℚ) + 1)⌋).toNat
  (listSwap st.1 i j, r.2)

/-- `seededShuffle(array, seed)`: Fisher-Yates from `i = length-1` down to 1,
driven by `seededRandom(seed)`. -/
def seededShuffle (sinFn : ℚ → ℚ) (arr : List α) (seed : String) : List α :=
  (((List.range (arr.length - 1)).reverse.map (fun t => t + 1)).foldl
    (shuffleStep sinFn) (arr, charSum seed)).1

/-- `board[i-1][…]` index used by the partial fill of `generateSolvedBoard`. -/
def prevRow (i : Fin 9) : Fin 9 :=
  ⟨i.val - 1, by have := i.isLt; omega⟩

/-- `(j + 3) % 9` column index used by the partial fill. -/
def shiftCol (j : Fin 9) : Fin 9 :=
  ⟨(j.val + 3) % 9, Nat.mod_lt _ (by omega)⟩

/-- The `(i, j)` pairs of the partial-fill double loop
(`for i = 1..2, for j = 0..2`), in execution order. -/
def fillPairs : List Pos :=
  [(1, 0), (1, 1), (1, 2), (2, 0), (2, 1), (2, 2)]

/-- The board built by `generateSolvedBoard` before solving: row 0 is the
shuffled `firstRow`, then `board[i][j] = board[i-1][(j+3)%9]` for the six
`fillPairs` cells (reading the board as already partially updated). -/
def seedBoard (fr : List Nat) : Board :=
  fillPairs.foldl
    (fun bb q => setCell bb q.1 q.2 (bb (prevRow q.1) (shiftCol q.2)))
    ((List.finRange 9).foldl (fun bb i => setCell bb 0 i (fr.getD i.val 0))
      (fun _ _ => 0))

/-- `generateSolvedBoard(seed)` (the generator always passes a seed, so the
`Math.random` branch is never taken): build the seeded partial board, solve a
copy, return it on success and `null` on failure. -/
def generateSolvedBoard (sinFn : ℚ → ℚ) (seed : String) : Option Board :=
  let firstRow := seededShuffle sinFn [1, 2, 3, 4, 5, 6, 7, 8, 9] seed
  let board := seedBoard firstRow
  let res := solveBoard board
  if res.1 then some res.2 else none

inductive Difficulty : Type
  | easy
  | medium
  | hard
deriving DecidableEq

/-- The string used to build difficulty-specific seeds. -/
def difficultyName : Difficulty → String
  | Difficulty.easy => "easy"
  | Difficulty.medium => "medium"
  | Difficulty.hard => "hard"

/-- `getDifficultyClues`: the fixed clue-count table of generator.ts. -/
def getDifficultyClues : Difficulty → Nat
  | Difficulty.easy => 50
  | Difficulty.medium => 35
  | Difficulty.hard => 20

/-- `getAllCellPositions`: all 81 positions, row-major. -/
def getAllCellPositions : List Pos :=
  allCells

/-- One entry of the `dailyPuzzles` cache. -/
structure CacheEntry : Type where
  date : String
  solvedBoard : Board
  cellsToKeep : List Pos

/-- The `dailyPuzzles` module-level cache, keyed by difficulty. -/
def GenState : Type :=
  Difficulty → Option CacheEntry

def emptyState : GenState :=
  fun _ => none

def setState (st : GenState) (d : Difficulty) (e : CacheEntry) : GenState :=
  fun d' => if d' = d then some e else st d'

/-- Zero every cell not in `keep` (the `cellsToKeepSet` loops). -/
def maskBoard (b : Board) (keep : List Pos) : Board :=
  fun i j => if (i, j) ∈ keep then b i j else 0

/-- `Array.from(new Set(…))` over `"r,c"` strings: deduplicate keeping the
first occurrence, preserving order. -/
def dedupFirstGo (seen : List Pos) : List Pos → List Pos
  | [] => []
  | p :: rest =>
    if p ∈ seen then dedupFirstGo seen rest
    else p :: dedupFirstGo (p :: seen) rest

def dedupFirst (l : List Pos) : List Pos :=
  dedupFirstGo [] l

/-- The unique-solution attempt loop (`while (!uniqueSolutionFound && attempts
< 5)`), with `minRequiredClues = 20`.  `a` is the current value of `attempts`
after the increment at the top of the body; the fuel counts the remaining
iterations.  Returns the found candidate list (if any) and the final value of
`shuffledCells` (reshuffled once more on every failure, including the last). -/
def attemptLoop (sinFn : ℚ → ℚ) (solved : Board) (seed altSeed : String) :
    Nat → Nat → List Pos → List Pos → Option (List Pos) × List Pos
  | 0, _, shuffled, _ => (none, shuffled)
  | fuel + 1, a, shuffled, alt =>
    let combined := shuffled.take 30 ++ alt.take 30
    let uniqueCells := dedupFirst combined
    let testCells := uniqueCells.take 20
    let testPuzzle := maskBoard solved testCells
    if hasUniqueSolution testPuzzle then (some uniqueCells, shuffled)
    else
      attemptLoop sinFn solved seed altSeed fuel (a + 1)
        (seededShuffle sinFn shuffled (seed ++ "-" ++ toString a))
        (seededShuffle sinFn alt (altSeed ++ "-" ++ toString a))

/-- The cache-miss branch of `generateSudokuPuzzle`, parameterized by the
solved-board constructor `gsb` (the call to `generateSolvedBoard`): build the
solved board (throwing if it is null), shuffle the candidate cell orders, run
the attempt loop and produce the cache entry. -/
def regenEntryWith (gsb : String → Option Board) (sinFn : ℚ → ℚ)
    (today : String) (diff : Difficulty) : Except String CacheEntry :=
  let seed := today ++ "-" ++ difficultyName diff
  match gsb seed with
  | none =>
    Except.error ("Failed to generate solved board for " ++
      difficultyName diff ++ " difficulty")
  | some solved =>
    let shuffled := seededShuffle sinFn getAllCellPositions seed
    let altSeed := seed ++ "-unique"
    let alt := seededShuffle sinFn getAllCellPositions altSeed
    let res := attemptLoop sinFn solved seed altSeed 5 1 shuffled alt
    Except.ok
      { date := today
        solvedBoard := solved
        cellsToKeep :=
          match res.1 with
          | some cells => cells
          | none => res.2 }

/-- The common tail of `generateSudokuPuzzle`: keep the first
`getDifficultyClues difficulty` cached candidate cells and zero the rest of
the cached solved board. -/
def puzzleFromEntry (diff : Difficulty) (e : CacheEntry) : Board :=
  maskBoard e.solvedBoard (e.cellsToKeep.take (getDifficultyClues diff))

def regenAndServe (gsb : String → Option Board) (sinFn : ℚ → ℚ)
    (today : String) (diff : Difficulty) (st : GenState) :
    Except String (Board × GenState) :=
  match regenEntryWith gsb sinFn today diff with
  | Except.error m => Except.error m
  | Except.ok e2 => Except.ok (puzzleFromEntry diff e2, setState st diff e2)

/-- `generateSudokuPuzzle(difficulty)` with the cache state passed explicitly
and the date a parameter: regenerate when this difficulty has no cached entry
for `today`, then serve the first `clues` candidate cells of the cached solved
board.  A thrown `Error` is an `Except.error`. -/
def generateSudokuPuzzleWith (gsb : String → Option Board) (sinFn : ℚ → ℚ)
    (today : String) (diff : Difficulty) (st : GenState) :
    Except String (Board × GenState) :=
  match st diff with
  | some e =>
    if e.date = today then Except.ok (puzzleFromEntry diff e, st)
    else regenAndServe gsb sinFn today diff st
  | none => regenAndServe gsb sinFn today diff st

def generateSudokuPuzzle (sinFn : ℚ → ℚ) (today : String) (diff : Difficulty)
    (st : GenState) : Except String (Board × GenState) :=
  generateSudokuPuzzleWith (generateSolvedBoard sinFn) sinFn today diff st

/-- The grid a caller receives. -/
def gridOf (r : Except String (Board × GenState)) : Option Board :=
  r.toOption.map Prod.fst

/-- Every cached entry holds a genuinely solved board (true of every state the
code can reach, the empty state included). -/
def GoodState (st : GenState) : Prop :=
  ∀ (d : Difficulty) (e : CacheEntry), st d = some e →
    validateSudokuBoard e.solvedBoard = true ∧
    isBoardComplete e.solvedBoard = true ∧ okBoard e.solvedBoard

/-- On a successful generation the returned grid is solvable. -/
def SolveOk : Except String (Board × GenState) → Prop
  | Except.error _ => True
  | Except.ok p => (solveBoard p.1).1 = true

-- ——————————————————————————————————————————————————————————————————————————
-- The shuffle permutes its input; its output depends on the seed only
-- through the character-code sum.
-- ——————————————————————————————————————————————————————————————————————————

theorem set_getElem_self_eq {α : Type} (l : List α) (i : Nat) (h : i < l.length) :
    l.set i l[i] = l := by
  apply List.ext_getElem (by simp)
  intro n h1 h2
  rw [List.getElem_set]
  split
  · subst ‹i = n›; rfl
  · rfl

theorem listSwap_perm {α : Type} [DecidableEq α] (l : List α) (i j : Nat) :
    (listSwap l i j).Perm l := by
  unfold listSwap
  cases hi : l[i]? with
  | none =>
    cases hj : l[j]? with
    | none => exact List.Perm.refl l
    | some b => exact List.Perm.refl l
  | some a =>
    cases hj : l[j]? with
    | none => exact List.Perm.refl l
    | some b =>
      obtain ⟨hi', hia⟩ := List.getElem?_eq_some_iff.mp hi
      obtain ⟨hj', hjb⟩ := List.getElem?_eq_some_iff.mp hj
      subst hia
      subst hjb
      by_cases hij : i = j
      · subst hij
        show ((l.set i l[i]).set i l[i]).Perm l
        rw [List.set_set, set_getElem_self_eq]
      · show ((l.set i l[j]).set j l[i]).Perm l
        rw [List.perm_iff_count]
        intro x
        have hj2 : j < (l.set i l[j]).length := by
          rw [List.length_set]
          exact hj'
        rw [List.count_set _ _ _ _ hj2, List.count_set _ _ _ _ hi']
        rw [show (l.set i l[j])[j] = l[j] from List.getElem_set_ne hij _]
        have hA : (if (l[i] == x) = true then 1 else 0) ≤ List.count x l := by
          by_cases hx : l[i] = x
          · simp only [hx, beq_self_eq_true, if_pos]
            exact List.count_pos_iff.mpr (hx ▸ List.getElem_mem hi')
          · simp [hx]
        set A := (if (l[i] == x) = true then 1 else 0) with hAdef
        set B := (if (l[j] == x) = true then 1 else 0) with hBdef
        omega

theorem foldl_shuffleStep_perm {α : Type} [DecidableEq α] (sinFn : ℚ → ℚ) :
    ∀ (steps : List Nat) (st : List α × ℚ),
      ((steps.foldl (shuffleStep sinFn) st).1).Perm st.1 := by
  intro steps
  induction steps with
  | nil => intro st; exact List.Perm.refl _
  | cons i rest ih =>
    intro st
    rw [List.foldl_cons]
    refine (ih (shuffleStep sinFn st i)).trans ?_
    show (shuffleStep sinFn st i).1.Perm st.1
    unfold shuffleStep
    exact listSwap_perm _ _ _

theorem seededShuffle_perm {α : Type} [DecidableEq α] (sinFn : ℚ → ℚ)
    (arr : List α) (seed : String) : (seededShuffle sinFn arr seed).Perm arr := by
  unfold seededShuffle
  exact foldl_shuffleStep_perm sinFn _ (arr, charSum seed)

theorem seededShuffle_eq_of_charSum {α : Type} (sinFn : ℚ → ℚ) (arr : List α)
    {s1 s2 : String} (h : charSum s1 = charSum s2) :
    seededShuffle sinFn arr s1 = seededShuffle sinFn arr s2 := by
  unfold seededShuffle
  rw [h]

theorem charSum_append (s t : String) :
    charSum (s ++ t) = charSum s + charSum t := by
  unfold charSum
  rw [String.data_append, List.map_append, List.sum_append]
  push_cast
  ring

-- ——————————————————————————————————————————————————————————————————————————
-- The partially filled board built by `generateSolvedBoard` is valid.
-- ——————————————————————————————————————————————————————————————————————————

theorem seedRow0_apply (fr : List Nat) (i j : Fin 9) :
    ((List.finRange 9).foldl (fun bb p => setCell bb 0 p (fr.getD p.val 0))
      (fun _ _ => 0) : Board) i j =
      if i.val = 0 then fr.getD j.val 0 else 0 := by
  rw [show List.finRange 9 = [0, 1, 2, 3, 4, 5, 6, 7, 8] from by decide]
  simp only [List.foldl_cons, List.foldl_nil]
  by_cases hi : i = 0
  · subst hi
    simp only [show ((0 : Fin 9) : Fin 9).val = 0 from rfl, if_pos rfl]
    fin_cases j <;> simp [setCell] <;> rfl
  · have hvi : ¬ i.val = 0 := fun h => hi (Fin.ext h)
    simp [setCell, hi, hvi]

theorem seedBoard_apply (fr : List Nat) (i j : Fin 9) :
    seedBoard fr i j =
      if i.val = 0 then fr.getD j.val 0
      else if i.val = 1 ∧ j.val < 3 then fr.getD (j.val + 3) 0
      else 0 := by
  rw [seedBoard]
  have hbase := seedRow0_apply fr
  set b1 : Board := (List.finRange 9).foldl
    (fun bb p => setCell bb 0 p (fr.getD p.val 0)) (fun _ _ => 0) with hb1
  simp only [fillPairs, List.foldl_cons, List.foldl_nil]
  fin_cases i <;> fin_cases j <;>
    simp [setCell, prevRow, shiftCol, hbase] <;>
    first
    | rfl
    | (intro h; exact absurd h (by decide))

theorem seedBoard_good {fr : List Nat}
    (hperm : fr.Perm [1, 2, 3, 4, 5, 6, 7, 8, 9]) :
    ValidB (seedBoard fr) ∧ okBoard (seedBoard fr) := by
  have hlen : fr.length = 9 := hperm.length_eq
  have hnodup : fr.Nodup := hperm.nodup_iff.mpr (by decide)
  have hbounds : ∀ a : Nat, a < 9 → 1 ≤ fr.getD a 0 ∧ fr.getD a 0 ≤ 9 := by
    intro a ha
    have ha' : a < fr.length := by omega
    rw [List.getD_eq_getElem fr 0 ha']
    have hmem : fr[a] ∈ fr := List.getElem_mem ha'
    have hperm' := hperm.mem_iff.mp hmem
    have hall : ∀ y ∈ ([1, 2, 3, 4, 5, 6, 7, 8, 9] : List Nat),
        1 ≤ y ∧ y ≤ 9 := by decide
    exact hall _ hperm'
  have hinj : ∀ a b : Nat, a < 9 → b < 9 → a ≠ b →
      fr.getD a 0 ≠ fr.getD b 0 := by
    intro a b ha hb hab
    have ha' : a < fr.length := by omega
    have hb' : b < fr.length := by omega
    rw [List.getD_eq_getElem fr 0 ha', List.getD_eq_getElem fr 0 hb']
    intro h
    exact hab ((List.Nodup.getElem_inj_iff hnodup).mp h)
  constructor
  · refine ⟨?_, ?_, ?_⟩
    · intro r c1 c2 hne h0 heq
      rw [seedBoard_apply] at h0 heq
      rw [seedBoard_apply fr r c2] at heq
      by_cases hr0 : r.val = 0
      · simp only [if_pos hr0] at h0 heq
        have hc12 : c1.val ≠ c2.val := fun h => hne (Fin.ext h)
        exact hinj _ _ c1.isLt c2.isLt hc12 heq
      · simp only [if_neg hr0] at h0 heq
        by_cases hr1 : r.val = 1 ∧ c1.val < 3
        · simp only [if_pos hr1] at h0 heq
          by_cases hr2 : r.val = 1 ∧ c2.val < 3
          · simp only [if_pos hr2] at heq
            have : c1.val + 3 ≠ c2.val + 3 := by
              intro h
              exact hne (Fin.ext (by omega))
            exact hinj _ _ (by omega) (by omega) this heq
          · simp only [if_neg hr2] at heq
            have := (hbounds (c1.val + 3) (by omega)).1
            omega
        · simp only [if_neg hr1] at h0
          exact h0 rfl
    · intro c r1 r2 hne h0 heq
      rw [seedBoard_apply] at h0 heq
      rw [seedBoard_apply fr r2 c] at heq
      by_cases h10 : r1.val = 0
      · simp only [if_pos h10] at h0 heq
        by_cases h20 : r2.val = 0
        · exact hne (Fin.ext (by omega))
        · simp only [if_neg h20] at heq
          by_cases h21 : r2.val = 1 ∧ c.val < 3
          · simp only [if_pos h21] at heq
            exact hinj _ _ c.isLt (by omega) (by omega) heq
          · simp only [if_neg h21] at heq
            have := (hbounds c.val c.isLt).1
            omega
      · simp only [if_neg h10] at h0 heq
        by_cases h11 : r1.val = 1 ∧ c.val < 3
        · simp only [if_pos h11] at h0 heq
          by_cases h20 : r2.val = 0
          · simp only [if_pos h20] at heq
            exact hinj _ _ (by omega) c.isLt (by omega) heq
          · simp only [if_neg h20] at heq
            by_cases h21 : r2.val = 1 ∧ c.val < 3
            · exact hne (Fin.ext (by omega))
            · simp only [if_neg h21] at heq
              have := (hbounds (c.val + 3) (by omega)).1
              omega
        · simp only [if_neg h11] at h0
          exact h0 rfl
    · intro p q hpq hd1 hd2 h0 heq
      rw [seedBoard_apply] at h0 heq
      rw [seedBoard_apply fr q.1 q.2] at heq
      by_cases h10 : p.1.val = 0
      · simp only [if_pos h10] at h0 heq
        by_cases h20 : q.1.val = 0
        · simp only [if_pos h20] at heq
          have hc2 : p.2.val ≠ q.2.val := by
            intro h
            exact hpq (Prod.ext (Fin.ext (by omega)) (Fin.ext h))
          exact hinj _ _ p.2.isLt q.2.isLt hc2 heq
        · simp only [if_neg h20] at heq
          by_cases h21 : q.1.val = 1 ∧ q.2.val < 3
          · simp only [if_pos h21] at heq
            have hne' : p.2.val ≠ q.2.val + 3 := by
              have hq3 : q.2.val / 3 = 0 := by omega
              have hp3 : p.2.val < 3 := by omega
              omega
            exact hinj _ _ p.2.isLt (by omega) hne' heq
          · simp only [if_neg h21] at heq
            have := (hbounds p.2.val p.2.isLt).1
            omega
      · simp only [if_neg h10] at h0 heq
        by_cases h11 : p.1.val = 1 ∧ p.2.val < 3
        · simp only [if_pos h11] at h0 heq
          by_cases h20 : q.1.val = 0
          · simp only [if_pos h20] at heq
            have hne' : p.2.val + 3 ≠ q.2.val := by
              have hp3 : p.2.val / 3 = 0 := by omega
              have hq3 : q.2.val < 3 := by omega
              omega
            exact hinj _ _ (by omega) q.2.isLt hne' heq
          · simp only [if_neg h20] at heq
            by_cases h21 : q.1.val = 1 ∧ q.2.val < 3
            · simp only [if_pos h21] at heq
              have hne' : p.2.val + 3 ≠ q.2.val + 3 := by
                intro h
                exact hpq (Prod.ext (Fin.ext (by omega)) (Fin.ext (by omega)))
              exact hinj _ _ (by omega) (by omega) hne' heq
            · simp only [if_neg h21] at heq
              have := (hbounds (p.2.val + 3) (by omega)).1
              omega
        · simp only [if_neg h11] at h0
          exact h0 rfl
  · intro i j
    rw [seedBoard_apply]
    by_cases h1 : i.val = 0
    · simp only [if_pos h1]
      exact (hbounds j.val j.isLt).2
    · simp only [if_neg h1]
      by_cases h2 : i.val = 1 ∧ j.val < 3
      · simp only [if_pos h2]
        exact (hbounds (j.val + 3) (by omega)).2
      · simp only [if_neg h2]
        omega

-- ——————————————————————————————————————————————————————————————————————————
-- Generator-level lemmas.
-- ——————————————————————————————————————————————————————————————————————————

theorem solveBoard_sound {b : Board} (hb : ValidB b) (hok : okBoard b)
    (h : (solveBoard b).1 = true) :
    ValidB (solveBoard b).2 ∧ okBoard (solveBoard b).2 ∧
      ∀ i j : Fin 9, (solveBoard b).2 i j ≠ 0 :=
  solveAux_sound 82 b hb hok h

theorem solveBoard_restore {b : Board} (h : (solveBoard b).1 = false) :
    (solveBoard b).2 = b :=
  solveAux_restore 82 b h

theorem solveBoard_complete {b : Board} (h : ∃ s, Solves b s) :
    (solveBoard b).1 = true :=
  solveAux_complete 82 b (by have := emptyCount_le b; omega) h

theorem generateSolvedBoard_eq (sinFn : ℚ → ℚ) (seed : String) :
    generateSolvedBoard sinFn seed =
      if (solveBoard (seedBoard
          (seededShuffle sinFn [1, 2, 3, 4, 5, 6, 7, 8, 9] seed))).1 then
        some (solveBoard (seedBoard
          (seededShuffle sinFn [1, 2, 3, 4, 5, 6, 7, 8, 9] seed))).2
      else none := rfl

theorem attemptLoop_succ (sinFn : ℚ → ℚ) (solved : Board)
    (seed altSeed : String) (fuel a : Nat) (shuffled alt : List Pos) :
    attemptLoop sinFn solved seed altSeed (fuel + 1) a shuffled alt =
      (if hasUniqueSolution (maskBoard solved
          ((dedupFirst (shuffled.take 30 ++ alt.take 30)).take 20)) then
        (some (dedupFirst (shuffled.take 30 ++ alt.take 30)), shuffled)
      else
        attemptLoop sinFn solved seed altSeed fuel (a + 1)
          (seededShuffle sinFn shuffled (seed ++ "-" ++ toString a))
          (seededShuffle sinFn alt (altSeed ++ "-" ++ toString a))) := rfl

theorem attemptLoop_zero (sinFn : ℚ → ℚ) (solved : Board)
    (seed altSeed : String) (a : Nat) (shuffled alt : List Pos) :
    attemptLoop sinFn solved seed altSeed 0 a shuffled alt = (none, shuffled) :=
  rfl

attribute [irreducible] seededShuffle generateSolvedBoard attemptLoop

theorem generateSolvedBoard_good {sinFn : ℚ → ℚ} {seed : String} {b : Board}
    (h : generateSolvedBoard sinFn seed = some b) :
    validateSudokuBoard b = true ∧ isBoardComplete b = true ∧ okBoard b := by
  rw [generateSolvedBoard_eq] at h
  have hperm : (seededShuffle sinFn [1, 2, 3, 4, 5, 6, 7, 8, 9] seed).Perm
      [1, 2, 3, 4, 5, 6, 7, 8, 9] := seededShuffle_perm sinFn _ seed
  obtain ⟨hvalid, hok⟩ := seedBoard_good hperm
  by_cases h1 : (solveBoard (seedBoard
      (seededShuffle sinFn [1, 2, 3, 4, 5, 6, 7, 8, 9] seed))).1 = true
  · rw [if_pos h1] at h
    obtain ⟨hv2, hok2, hc2⟩ := solveBoard_sound hvalid hok h1
    have hb : (solveBoard (seedBoard
        (seededShuffle sinFn [1, 2, 3, 4, 5, 6, 7, 8, 9] seed))).2 = b :=
      Option.some.inj h
    rw [← hb]
    exact ⟨validateSudokuBoard_iff.mpr hv2, isBoardComplete_iff.mpr hc2, hok2⟩
  · rw [if_neg h1] at h
    cases h

theorem regenEntryWith_none {gsb : String → Option Board} {sinFn : ℚ → ℚ}
    {today : String} {diff : Difficulty}
    (h : gsb (today ++ "-" ++ difficultyName diff) = none) :
    regenEntryWith gsb sinFn today diff =
      Except.error ("Failed to generate solved board for " ++
        difficultyName diff ++ " difficulty") := by
  unfold regenEntryWith
  simp only [h]

theorem regenEntryWith_some {gsb : String → Option Board} {sinFn : ℚ → ℚ}
    {today : String} {diff : Difficulty} {solved : Board}
    (h : gsb (today ++ "-" ++ difficultyName diff) = some solved) :
    regenEntryWith gsb sinFn today diff = Except.ok
      { date := today
        solvedBoard := solved
        cellsToKeep :=
          (let seed := today ++ "-" ++ difficultyName diff
           let altSeed := seed ++ "-unique"
           let res := attemptLoop sinFn solved seed altSeed 5 1
             (seededShuffle sinFn getAllCellPositions seed)
             (seededShuffle sinFn getAllCellPositions altSeed)
           match res.1 with
           | some cells => cells
           | none => res.2) } := by
  unfold regenEntryWith
  simp only [h]

theorem regenEntry_date {gsb : String → Option Board} {sinFn : ℚ → ℚ}
    {today : String} {diff : Difficulty} {e : CacheEntry}
    (h : regenEntryWith gsb sinFn today diff = Except.ok e) : e.date = today := by
  rcases hgsb : gsb (today ++ "-" ++ difficultyName diff) with - | solved
  · rw [regenEntryWith_none hgsb] at h
    cases h
  · rw [regenEntryWith_some hgsb] at h
    have := Except.ok.inj h
    rw [← this]

theorem regenEntry_good {sinFn : ℚ → ℚ} {today : String} {diff : Difficulty}
    {e : CacheEntry}
    (h : regenEntryWith (generateSolvedBoard sinFn) sinFn today diff =
      Except.ok e) :
    validateSudokuBoard e.solvedBoard = true ∧
      isBoardComplete e.solvedBoard = true ∧ okBoard e.solvedBoard := by
  rcases hgsb : generateSolvedBoard sinFn (today ++ "-" ++ difficultyName diff)
    with - | solved
  · rw [regenEntryWith_none hgsb] at h
    cases h
  · rw [regenEntryWith_some hgsb] at h
    have he := Except.ok.inj h
    have hsb : e.solvedBoard = solved := by rw [← he]
    rw [hsb]
    exact generateSolvedBoard_good hgsb

theorem solveBoard_maskBoard {g : Board} (hv : validateSudokuBoard g = true)
    (hc : isBoardComplete g = true) (hok : okBoard g) (keep : List Pos) :
    (solveBoard (maskBoard g keep)).1 = true := by
  apply solveBoard_complete
  refine ⟨g, ?_, ?_, validateSudokuBoard_iff.mp hv⟩
  · intro i j hne
    by_cases hmem : (i, j) ∈ keep
    · simp [maskBoard, hmem]
    · exact absurd (by simp [maskBoard, hmem]) hne
  · intro i j
    exact ⟨by have := isBoardComplete_iff.mp hc i j; omega, hok i j⟩

theorem solveOk_regenAndServe (sinFn : ℚ → ℚ) (today : String)
    (diff : Difficulty) (st : GenState) :
    SolveOk (regenAndServe (generateSolvedBoard sinFn) sinFn today diff st) := by
  unfold regenAndServe
  cases hreg : regenEntryWith (generateSolvedBoard sinFn) sinFn today diff with
  | error m => trivial
  | ok e2 =>
    obtain ⟨hv, hc, hok⟩ := regenEntry_good hreg
    show (solveBoard (puzzleFromEntry diff e2)).1 = true
    unfold puzzleFromEntry
    exact solveBoard_maskBoard hv hc hok _

theorem generateSudokuPuzzle_eq (sinFn : ℚ → ℚ) (today : String)
    (diff : Difficulty) (st : GenState) :
    generateSudokuPuzzle sinFn today diff st =
      generateSudokuPuzzleWith (generateSolvedBoard sinFn) sinFn today diff st :=
  rfl

theorem generateWith_none {gsb : String → Option Board} {sinFn : ℚ → ℚ}
    {today : String} {diff : Difficulty} {st : GenState} (h : st diff = none) :
    generateSudokuPuzzleWith gsb sinFn today diff st =
      regenAndServe gsb sinFn today diff st := by
  unfold generateSudokuPuzzleWith
  rw [h]

theorem generateWith_hit {gsb : String → Option Board} {sinFn : ℚ → ℚ}
    {today : String} {diff : Difficulty} {st : GenState} {e : CacheEntry}
    (h : st diff = some e) (hd : e.date = today) :
    generateSudokuPuzzleWith gsb sinFn today diff st =
      Except.ok (puzzleFromEntry diff e, st) := by
  unfold generateSudokuPuzzleWith
  rw [h]
  simp only
  rw [if_pos hd]

theorem generateWith_stale {gsb : String → Option Board} {sinFn : ℚ → ℚ}
    {today : String} {diff : Difficulty} {st : GenState} {e : CacheEntry}
    (h : st diff = some e) (hd : ¬e.date = today) :
    generateSudokuPuzzleWith gsb sinFn today diff st =
      regenAndServe gsb sinFn today diff st := by
  unfold generateSudokuPuzzleWith
  rw [h]
  simp only
  rw [if_neg hd]

theorem generate_solveOk (sinFn : ℚ → ℚ) (today : String) (diff : Difficulty)
    (st : GenState) (hst : GoodState st) :
    SolveOk (generateSudokuPuzzle sinFn today diff st) := by
  rw [generateSudokuPuzzle_eq]
  rcases hd : st diff with - | e
  · rw [generateWith_none hd]
    exact solveOk_regenAndServe sinFn today diff st
  · by_cases hdate : e.date = today
    · rw [generateWith_hit hd hdate]
      obtain ⟨hv, hc, hok⟩ := hst diff e hd
      show (solveBoard (puzzleFromEntry diff e)).1 = true
      unfold puzzleFromEntry
      exact solveBoard_maskBoard hv hc hok _
    · rw [generateWith_stale hd hdate]
      exact solveOk_regenAndServe sinFn today diff st

theorem setState_self (st : GenState) (d : Difficulty) (e : CacheEntry) :
    setState st d e d = some e := by
  simp [setState]

theorem generate_second_call (sinFn : ℚ → ℚ) (today : String)
    (diff : Difficulty) :
    (generateSudokuPuzzle sinFn today diff emptyState).bind
        (fun p => (generateSudokuPuzzle sinFn today diff p.2).map
          (fun q => (p.1, q.1))) =
      (generateSudokuPuzzle sinFn today diff emptyState).map
        (fun p => (p.1, p.1)) := by
  rw [generateSudokuPuzzle_eq,
    generateWith_none (show emptyState diff = none from rfl)]
  unfold regenAndServe
  cases hreg : regenEntryWith (generateSolvedBoard sinFn) sinFn today diff with
  | error m => rfl
  | ok e2 =>
    simp only [Except.bind, Except.map]
    rw [generateSudokuPuzzle_eq,
      generateWith_hit (setState_self emptyState diff e2) (regenEntry_date hreg)]

-- ——————————————————————————————————————————————————————————————————————————
-- Equal character-code sums give equal shuffles and equal puzzles.
-- ——————————————————————————————————————————————————————————————————————————

theorem generateSolvedBoard_charSum (sinFn : ℚ → ℚ) {s1 s2 : String}
    (h : charSum s1 = charSum s2) :
    generateSolvedBoard sinFn s1 = generateSolvedBoard sinFn s2 := by
  rw [generateSolvedBoard_eq sinFn s1, generateSolvedBoard_eq sinFn s2,
    seededShuffle_eq_of_charSum sinFn [1, 2, 3, 4, 5, 6, 7, 8, 9] h]

theorem attemptLoop_charSum (sinFn : ℚ → ℚ) (solved : Board) :
    ∀ (fuel a : Nat) (sh alt : List Pos) {s1 s2 t1 t2 : String},
      charSum s1 = charSum s2 → charSum t1 = charSum t2 →
      attemptLoop sinFn solved s1 t1 fuel a sh alt =
        attemptLoop sinFn solved s2 t2 fuel a sh alt := by
  intro fuel
  induction fuel with
  | zero =>
    intro a sh alt s1 s2 t1 t2 h1 h2
    rw [attemptLoop_zero, attemptLoop_zero]
  | succ f ih =>
    intro a sh alt s1 s2 t1 t2 h1 h2
    rw [attemptLoop_succ, attemptLoop_succ]
    by_cases hu : hasUniqueSolution (maskBoard solved
        ((dedupFirst (sh.take 30 ++ alt.take 30)).take 20)) = true
    · rw [if_pos hu, if_pos hu]
    · rw [if_neg hu, if_neg hu]
      have hs : charSum (s1 ++ "-" ++ toString a) =
          charSum (s2 ++ "-" ++ toString a) := by
        rw [charSum_append, charSum_append, charSum_append, charSum_append, h1]
      have ht : charSum (t1 ++ "-" ++ toString a) =
          charSum (t2 ++ "-" ++ toString a) := by
        rw [charSum_append, charSum_append, charSum_append, charSum_append, h2]
      rw [seededShuffle_eq_of_charSum sinFn sh hs,
        seededShuffle_eq_of_charSum sinFn alt ht]
      exact ih (a + 1) _ _ h1 h2

theorem regenEntry_charSum (sinFn : ℚ → ℚ) {d1 d2 : String} (diff : Difficulty)
    (h : charSum d1 = charSum d2) :
    (regenEntryWith (generateSolvedBoard sinFn) sinFn d1 diff).map
        (fun e => (e.solvedBoard, e.cellsToKeep)) =
      (regenEntryWith (generateSolvedBoard sinFn) sinFn d2 diff).map
        (fun e => (e.solvedBoard, e.cellsToKeep)) := by
  have hseed : charSum (d1 ++ "-" ++ difficultyName diff) =
      charSum (d2 ++ "-" ++ difficultyName diff) := by
    rw [charSum_append, charSum_append, charSum_append, charSum_append, h]
  have halt : charSum ((d1 ++ "-" ++ difficultyName diff) ++ "-unique") =
      charSum ((d2 ++ "-" ++ difficultyName diff) ++ "-unique") := by
    rw [charSum_append (d1 ++ "-" ++ difficultyName diff) ("-unique"), hseed,
      charSum_append (d2 ++ "-" ++ difficultyName diff) ("-unique")]
  have hgsb := generateSolvedBoard_charSum sinFn hseed
  rcases hg1 : generateSolvedBoard sinFn (d1 ++ "-" ++ difficultyName diff)
    with - | solved
  · have hg2 : generateSolvedBoard sinFn (d2 ++ "-" ++ difficultyName diff) =
        none := by
      rw [← hgsb]
      exact hg1
    rw [regenEntryWith_none hg1, regenEntryWith_none hg2]
  · have hg2 : generateSolvedBoard sinFn (d2 ++ "-" ++ difficultyName diff) =
        some solved := by
      rw [← hgsb]
      exact hg1
    rw [regenEntryWith_some hg1, regenEntryWith_some hg2]
    simp only [Except.map]
    rw [seededShuffle_eq_of_charSum sinFn getAllCellPositions hseed,
      seededShuffle_eq_of_charSum sinFn getAllCellPositions halt,
      attemptLoop_charSum sinFn solved 5 1 _ _ hseed halt]

theorem generate_charSum (sinFn : ℚ → ℚ) {d1 d2 : String} (diff : Difficulty)
    (h : charSum d1 = charSum d2) :
    gridOf (generateSudokuPuzzle sinFn d1 diff emptyState) =
      gridOf (generateSudokuPuzzle sinFn d2 diff emptyState) := by
  rw [generateSudokuPuzzle_eq, generateSudokuPuzzle_eq]
  rw [generateWith_none (show emptyState diff = none from rfl)]
  rw [generateWith_none (show emptyState diff = none from rfl)]
  unfold regenAndServe
  have hmap := regenEntry_charSum sinFn diff h
  rcases h1 : regenEntryWith (generateSolvedBoard sinFn) sinFn d1 diff
    with m | e1 <;>
    rcases h2 : regenEntryWith (generateSolvedBoard sinFn) sinFn d2 diff
      with m2 | e2 <;>
    rw [h1, h2] at hmap <;> simp only [Except.map] at hmap
  · rfl
  · cases hmap
  · cases hmap
  · have hcomp := Except.ok.inj hmap
    have hsb : e1.solvedBoard = e2.solvedBoard := congrArg Prod.fst hcomp
    have hck : e1.cellsToKeep = e2.cellsToKeep := congrArg Prod.snd hcomp
    show gridOf (Except.ok (puzzleFromEntry diff e1, setState emptyState diff e1)) = _
    unfold gridOf puzzleFromEntry
    simp only [Except.toOption, Option.map]
    rw [hsb, hck]

-- ——————————————————————————————————————————————————————————————————————————
-- Concrete boards used in counterexamples and witnesses.
-- ——————————————————————————————————————————————————————————————————————————

/-- A fully solved, valid sudoku grid (rows are shifted copies of 1..9). -/
def g0 : Board := fun i j => (i.val * 3 + i.val / 3 + j.val) % 9 + 1

/-- The board whose every cell is 1: complete but invalid. -/
def allOnes : Board := fun _ _ => 1

/-- A board whose first empty cell (0,0) admits no digit: row 0 holds 1..8
and cell (1,0) holds 9. -/
def badB : Board := fun i j =>
  if i.val = 0 then (if j.val = 0 then 0 else j.val)
  else if i.val = 1 ∧ j.val = 0 then 9 else 0

/-- Keep every cell except (0,0). -/
def keepEx : List Pos :=
  allCells.filter (fun p => !(p == ((0 : Fin 9), (0 : Fin 9))))

/-- A concrete stand-in for `Math.sin` (the theorems hold for every such
function). -/
def sinFn0 : ℚ → ℚ := fun _ => 0

theorem charSum_ab_ba : charSum ("ab") = charSum ("ba") := by
  unfold charSum
  congr 1

-- ——————————————————————————————————————————————————————————————————————————
-- The claims.
-- ——————————————————————————————————————————————————————————————————————————

/-- Claim C1, counterexample to the claim as stated: the all-ones grid has
values in [0,9] and `solveBoard` returns true on it (there is no empty cell),
leaving the grid unchanged, yet the grid fails `validateSudokuBoard`. -/
theorem claim_C1_counterexample :
    okBoard allOnes ∧ (solveBoard allOnes).1 = true ∧
      (solveBoard allOnes).2 = allOnes ∧
      validateSudokuBoard allOnes = false := by
  refine ⟨by decide, by decide, by decide, by decide⟩

/-- Claim C1 (amended: the grid must additionally pass `validateSudokuBoard`
before the call): for every 9x9 grid with values in [0,9] that passes
`validateSudokuBoard`, if `solveBoard` returns true then the mutated grid
passes `validateSudokuBoard` and `isBoardComplete`. -/
theorem claim_C1 (b : Board) (hok : okBoard b)
    (hv : validateSudokuBoard b = true) (ht : (solveBoard b).1 = true) :
    validateSudokuBoard (solveBoard b).2 = true ∧
      isBoardComplete (solveBoard b).2 = true := by
  obtain ⟨h1, h2, h3⟩ := solveBoard_sound (validateSudokuBoard_iff.mp hv) hok ht
  exact ⟨validateSudokuBoard_iff.mpr h1, isBoardComplete_iff.mpr h3⟩

/-- Witness for claim C1 at the concrete valid solved grid `g0`. -/
theorem claim_C1_witness :
    okBoard g0 ∧ validateSudokuBoard g0 = true ∧ (solveBoard g0).1 = true ∧
      validateSudokuBoard (solveBoard g0).2 = true ∧
      isBoardComplete (solveBoard g0).2 = true :=
  ⟨by decide, by decide, by decide,
    (claim_C1 g0 (by decide) (by decide) (by decide)).1,
    (claim_C1 g0 (by decide) (by decide) (by decide)).2⟩

/-- Claim C3: with `Math.sin` embedded as an arbitrary fixed function and the
UTC day a parameter, two successive calls of `generateSudokuPuzzle` with the
same difficulty on the same day return identical grids (the second call is
served from the cache the first call filled); a restarted process reruns the
same pure function of the seed, so it returns the same grid again. -/
theorem claim_C3 (sinFn : ℚ → ℚ) (today : String) (diff : Difficulty) :
    (generateSudokuPuzzle sinFn today diff emptyState).bind
        (fun p => (generateSudokuPuzzle sinFn today diff p.2).map
          (fun q => (p.1, q.1))) =
      (generateSudokuPuzzle sinFn today diff emptyState).map
        (fun p => (p.1, p.1)) :=
  generate_second_call sinFn today diff

/-- Claim C4: if `solveBoard` returns false, the board object holds exactly
its original contents (every backtracked cell was reset to 0). -/
theorem claim_C4 (b : Board) (h : (solveBoard b).1 = false) :
    (solveBoard b).2 = b :=
  solveBoard_restore h

/-- Witness for claim C4 at a concrete unsolvable board. -/
theorem claim_C4_witness :
    (solveBoard badB).1 = false ∧ (solveBoard badB).2 = badB :=
  ⟨by decide, claim_C4 badB (by decide)⟩

/-- Claim C5: `hasUniqueSolution` leaves the caller's grid unchanged — the
search runs on `copyBoard b` (an exact copy), and the board object the
counting search mutates ends up equal to `b` again. -/
theorem claim_C5 (b : Board) :
    (hasUniqueSolutionRun b).2 = b ∧ copyBoard b = b :=
  ⟨countAux_restore 82 (copyBoard b) 0, rfl⟩

/-- Claim C6, counterexample to the claim as stated: the all-ones grid has
values in [0,9] and `hasUniqueSolution` returns true on it (the complete
board is counted as a solution without rechecking the constraints), yet no
assignment of digits 1-9 completes it to a grid satisfying the row
constraints. -/
theorem claim_C6_counterexample :
    okBoard allOnes ∧ hasUniqueSolution allOnes = true ∧
      ¬∃! s : Board, Solves allOnes s := by
  refine ⟨by decide, by decide, ?_⟩
  rintro ⟨s, ⟨hext, hrange, hvalid⟩, -⟩
  have h01 : s 0 0 = 1 := hext 0 0 (by decide)
  have h02 : s 0 1 = 1 := hext 0 1 (by decide)
  exact (hvalid.1 0 0 1 (by decide) (by rw [h01]; omega)) (by rw [h01, h02])

/-- Claim C6 (amended: the grid must additionally pass `validateSudokuBoard`):
for every 9x9 grid with values in [0,9] that passes `validateSudokuBoard`,
`hasUniqueSolution` returns true iff there is exactly one assignment of
digits 1-9 to the grid's cells that completes it to a full grid satisfying
all row, column and box constraints. -/
theorem claim_C6 (b : Board) (hok : okBoard b)
    (hv : validateSudokuBoard b = true) :
    hasUniqueSolution b = true ↔ ∃! s : Board, Solves b s := by
  rw [hasUnique_iff_solCard (validateSudokuBoard_iff.mp hv) hok]
  exact solCard_eq_one_iff

/-- Witness for claim C6 at the concrete valid solved grid `g0`. -/
theorem claim_C6_witness :
    okBoard g0 ∧ validateSudokuBoard g0 = true ∧
      (hasUniqueSolution g0 = true ↔ ∃! s : Board, Solves g0 s) :=
  ⟨by decide, by decide, claim_C6 g0 (by decide) (by decide)⟩

/-- Claim C7: every placed value of a board that passes `validateSudokuBoard`
is individually valid against its peers. -/
theorem claim_C7 (b : Board) (r c : Fin 9)
    (hv : validateSudokuBoard b = true) :
    isValidPlacement b r c (b r c) = true := by
  obtain ⟨hrow, hcol, hbox⟩ := validateSudokuBoard_iff.mp hv
  apply (isValidPlacement_iff b r c (b r c)).mpr
  by_cases h0 : b r c = 0
  · exact Or.inl h0
  · refine Or.inr ⟨?_, ?_, ?_⟩
    · intro c' hc' heq
      exact (hrow r c c' (Ne.symm hc') h0) heq.symm
    · intro r' hr' heq
      exact (hcol c r r' (Ne.symm hr') h0) heq.symm
    · intro p hp1 hp2 hpne heq
      exact (hbox (r, c) p (Ne.symm hpne) hp1.symm hp2.symm h0) heq.symm

/-- Witness for claim C7 at the concrete valid grid `g0` and cell (0,0). -/
theorem claim_C7_witness :
    validateSudokuBoard g0 = true ∧ isValidPlacement g0 0 0 (g0 0 0) = true :=
  ⟨by decide, claim_C7 g0 0 0 (by decide)⟩

/-- Claim C8, counterexample to the claim as stated: with a solved-board
constructor that returns null for the primary seed but would succeed for
every other sub-seed, `generateSudokuPuzzle` surfaces the error to the caller
immediately — no retry with a different sub-seed ever happens. -/
theorem claim_C8_counterexample :
    generateSudokuPuzzleWith
        (fun s => if s = "2024-5-16-hard" then none else some g0)
        sinFn0 ("2024-5-16") Difficulty.hard emptyState =
      Except.error ("Failed to generate solved board for hard difficulty") :=
  rfl

/-- Claim C8 (amended): when the solved-board construction returns null on a
cache miss, `generateSudokuPuzzle` immediately throws
"Failed to generate solved board for … difficulty"; the outcome holds for
every constructor `gsb` regardless of its values at other seeds, so no retry
with a different sub-seed occurs. -/
theorem claim_C8 (gsb : String → Option Board) (sinFn : ℚ → ℚ)
    (today : String) (diff : Difficulty) (st : GenState)
    (hmiss : st diff = none)
    (hfail : gsb (today ++ "-" ++ difficultyName diff) = none) :
    generateSudokuPuzzleWith gsb sinFn today diff st =
      Except.error ("Failed to generate solved board for " ++
        difficultyName diff ++ " difficulty") := by
  rw [generateWith_none hmiss]
  unfold regenAndServe
  rw [regenEntryWith_none hfail]

/-- Witness for claim C8 with the constantly-failing constructor. -/
theorem claim_C8_witness :
    emptyState Difficulty.hard = none ∧
      (fun _ : String => (none : Option Board))
        ("2024-5-16" ++ "-" ++ difficultyName Difficulty.hard) = none ∧
      generateSudokuPuzzleWith (fun _ => none) sinFn0 ("2024-5-16")
          Difficulty.hard emptyState =
        Except.error ("Failed to generate solved board for hard difficulty") :=
  ⟨rfl, rfl, claim_C8 (fun _ => none) sinFn0 ("2024-5-16") Difficulty.hard
    emptyState rfl rfl⟩

/-- Claim C9: zeroing an arbitrary subset of cells of a fully solved,
constraint-satisfying grid leaves a board `solveBoard` solves; in particular
`solveBoard` succeeds on any grid `generateSudokuPuzzle` returns (for any
cache state whose entries hold genuinely solved boards, the empty state
included). -/
theorem claim_C9 :
    (∀ (g : Board) (keep : List Pos), okBoard g →
        validateSudokuBoard g = true → isBoardComplete g = true →
        (solveBoard (maskBoard g keep)).1 = true) ∧
      ∀ (sinFn : ℚ → ℚ) (today : String) (diff : Difficulty) (st : GenState),
        GoodState st → SolveOk (generateSudokuPuzzle sinFn today diff st) := by
  constructor
  · intro g keep hok hv hc
    exact solveBoard_maskBoard hv hc hok keep
  · intro sinFn today diff st hst
    exact generate_solveOk sinFn today diff st hst

/-- Witness for claim C9: the concrete grid `g0` with cell (0,0) zeroed, and
the generator run from the empty cache state. -/
theorem claim_C9_witness :
    (okBoard g0 ∧ validateSudokuBoard g0 = true ∧ isBoardComplete g0 = true ∧
        (solveBoard (maskBoard g0 keepEx)).1 = true) ∧
      GoodState emptyState ∧
      SolveOk (generateSudokuPuzzle sinFn0 ("2024-5-16") Difficulty.hard
        emptyState) :=
  ⟨⟨by decide, by decide, by decide,
      claim_C9.1 g0 keepEx (by decide) (by decide) (by decide)⟩,
    ⟨(fun _ _ h => nomatch h),
      claim_C9.2 sinFn0 ("2024-5-16") Difficulty.hard emptyState
        (fun _ _ h => nomatch h)⟩⟩

/-- Claim C10: `seededRandom`'s state is initialized only from the sum of the
seed's character codes, so seeds with equal character-code sums give
identical shuffles for every array, and two dates whose strings have equal
character-code sums give the same puzzle for the same difficulty. -/
theorem claim_C10 :
    (∀ (α : Type) (sinFn : ℚ → ℚ) (arr : List α) (s1 s2 : String),
        charSum s1 = charSum s2 →
        seededShuffle sinFn arr s1 = seededShuffle sinFn arr s2) ∧
      ∀ (sinFn : ℚ → ℚ) (d1 d2 : String) (diff : Difficulty),
        charSum d1 = charSum d2 →
        gridOf (generateSudokuPuzzle sinFn d1 diff emptyState) =
          gridOf (generateSudokuPuzzle sinFn d2 diff emptyState) := by
  constructor
  · intro α sinFn arr s1 s2 h
    exact seededShuffle_eq_of_charSum sinFn arr h
  · intro sinFn d1 d2 diff h
    exact generate_charSum sinFn diff h

/-- Witness for claim C10 with the distinct equal-sum seeds "ab" and "ba". -/
theorem claim_C10_witness :
    charSum ("ab") = charSum ("ba") ∧
      seededShuffle sinFn0 [1, 2, 3] ("ab") =
        seededShuffle sinFn0 [1, 2, 3] ("ba") ∧
      gridOf (generateSudokuPuzzle sinFn0 ("ab") Difficulty.hard emptyState) =
        gridOf (generateSudokuPuzzle sinFn0 ("ba") Difficulty.hard
          emptyState) :=
  ⟨charSum_ab_ba,
    claim_C10.1 Nat sinFn0 [1, 2, 3] ("ab") ("ba") charSum_ab_ba,
    claim_C10.2 sinFn0 ("ab") ("ba") Difficulty.hard charSum_ab_ba⟩
